import Mathlib

/-!
Verification development for the embroidery conversion core
(image → stitch pattern → DST and other machine formats).

The TypeScript source is shallowly embedded:
* JavaScript `number` arithmetic is modelled by exact rationals `ℚ`
  (and by `ℤ` after `Math.round`); machine integers do not occur.
  Where a claim is specifically about NaN / Infinity behaviour a second,
  explicitly extended number type `ENum` is used (see the `ENum` section).
* Fallible code (functions that `throw`) returns `Option`/`Except`.
* `Math.round x` is `⌊x + 1/2⌋` (JavaScript rounds half-up, towards +∞),
  `Math.ceil` is `⌈·⌉`, `Math.min`/`Math.max` over a spread argument list
  are folds.
* `String(n)` for a non-negative integer is modelled by its decimal digit
  string for `n < 10^21` and by a short `1e+⟨exp⟩` string above that
  (JavaScript switches to exponential notation at 1e21; only the length of
  these strings is ever relevant — the 512-byte DST header bound).
-/

/-- JavaScript `Math.round`: rounds half-up (towards `+∞`). -/
def jsRound (q : ℚ) : ℤ := ⌊q + 1 / 2⌋

/-- JavaScript truncation towards zero (used by the `%` remainder operator). -/
def jsTrunc (q : ℚ) : ℤ := if 0 ≤ q then ⌊q⌋ else -⌊-q⌋

/-- JavaScript `%` remainder: same sign as the dividend. -/
def jsRem (a n : ℚ) : ℚ := a - n * (jsTrunc (a / n) : ℚ)

/-- Fold modelling `Math.min(...xs)` seeded with the first element
(`d` is a fallback for the empty list, which never occurs on the paths
we prove about). -/
def listMin {β : Type} [LinearOrder β] (d : β) : List β → β
  | [] => d
  | x :: xs => xs.foldl min x

/-- Fold modelling `Math.max(...xs)` seeded with the first element. -/
def listMax {β : Type} [LinearOrder β] (d : β) : List β → β
  | [] => d
  | x :: xs => xs.foldl max x

/-- Fuel-driven accumulator loop for decimal rendering (structural
recursion so that concrete values reduce in the kernel; the fuel is always
sufficient at the call site below). -/
def decDigitsAux : ℕ → ℕ → List Char → List Char
  | 0, _, acc => acc
  | fuel + 1, n, acc =>
    if n < 10 then Char.ofNat (48 + n) :: acc
    else decDigitsAux fuel (n / 10) (Char.ofNat (48 + n % 10) :: acc)

/-- Decimal digit characters of a natural number (the value of
JavaScript `String(n)` for `n < 10^21`). -/
def decDigits (n : ℕ) : List Char :=
  decDigitsAux (n + 1) n []

/-- Character list of JavaScript `String(n)` for a natural number:
decimal below `10^21`, a short exponential-notation string above.  Only
the length of the exponential form matters in any proof; it is modelled
as `1e+⟨exponent⟩`. -/
def jsNumChars (n : ℕ) : List Char :=
  if n < 10 ^ 21 then decDigits n
  else '1' :: 'e' :: '+' :: decDigits ((decDigits n).length - 1)

/-- Character list of JavaScript `String(i)` for an integer. -/
def intChars (i : ℤ) : List Char :=
  if i < 0 then '-' :: jsNumChars i.natAbs else jsNumChars i.natAbs

/-- Stitch types of the `StitchPoint` TypeScript interface
(`'normal' | 'jump' | 'trim' | 'stop' | 'end'`). -/
inductive SType : Type
  | normal
  | jump
  | trim
  | stop
  | endS
  deriving DecidableEq, Repr

/-- A `StitchPoint` with millimetre (source-space) rational coordinates. -/
structure StitchQ : Type where
  x : ℚ
  y : ℚ
  type : SType
  color : String
  deriving DecidableEq

/-- A `StitchPoint` after `Math.round`, with integer coordinates
(0.1 mm machine units). -/
structure StitchZ : Type where
  x : ℤ
  y : ℤ
  type : SType
  color : String
  deriving DecidableEq

/-- A `StitchPattern` (metadata is irrelevant to every claim and omitted;
`dimensions` is flattened into `width`/`height`). -/
structure PatternQ : Type where
  stitches : List StitchQ
  colors : List String
  width : ℚ
  height : ℚ
  deriving DecidableEq

/-- Type bits OR-ed into `b2` by `DSTWriter.encodeStitchDelta`
(`jump → 0x83`, `stop → 0xC3`, `end → 0xF3`, default `0x03`). -/
def typeBits : SType → ℕ
  | .jump => 0x83
  | .stop => 0xC3
  | .endS => 0xF3
  | _ => 0x03

/-- `DSTWriter.encodeStitchDelta`: clamp the delta to `[-121, 121]`,
then pack `(|dx|, |dy|)` nibbles and the sign and type bits into three
bytes. -/
def encodeStitchDelta (dx dy : ℤ) (t : SType) : List ℕ :=
  let cx := max (-121) (min 121 dx)
  let cy := max (-121) (min 121 dy)
  let x := cx.natAbs
  let y := cy.natAbs
  let b0 := y &&& 0x0F
  let b1 := x &&& 0x0F
  let b2 := ((y &&& 0xF0) >>> 4) ||| ((x &&& 0xF0) >>> 4)
  let b2 := b2 ||| (if cx < 0 then 0x20 else 0)
  let b2 := b2 ||| (if cy < 0 then 0x40 else 0)
  let b2 := b2 ||| typeBits t
  [b0, b1, b2]

/-- Number of jump segments used by `DSTWriter.encodeStitches` to split a
large movement: `Math.max(Math.ceil(|dx|/MAX_JUMP), Math.ceil(|dy|/MAX_JUMP))`
with `MAX_JUMP = 121`. -/
def splitSteps (dx dy : ℤ) : ℕ :=
  (max ⌈(dx.natAbs : ℚ) / 121⌉ ⌈(dy.natAbs : ℚ) / 121⌉).toNat

/-- The `i`-th incremental component emitted by the splitting loop:
`Math.round(d * (i + 1) / steps - d * i / steps)`. -/
def stepVal (d : ℤ) (steps i : ℕ) : ℤ :=
  jsRound ((d * (i + 1) : ℚ) / steps - (d * i : ℚ) / steps)

/-- The bytes `DSTWriter.encodeStitches` emits for one logical stitch whose
delta from the previous position is `(dx, dy)`: a run of `splitSteps` jump
records when either component exceeds `MAX_STITCH = 121`, one record of the
stitch's own type otherwise. -/
def encodeOneDelta (dx dy : ℤ) (t : SType) : List ℕ :=
  if 121 < dx.natAbs ∨ 121 < dy.natAbs then
    (List.range (splitSteps dx dy)).flatMap fun i =>
      encodeStitchDelta (stepVal dx (splitSteps dx dy) i)
        (stepVal dy (splitSteps dx dy) i) .jump
  else
    encodeStitchDelta dx dy t

/-- The body loop of `DSTWriter.encodeStitches`: encode each stitch
against the previous position (`lastX`, `lastY` start at `(0, 0)`). -/
def encodeGo (lx ly : ℤ) : List StitchZ → List ℕ
  | [] => []
  | s :: rest => encodeOneDelta (s.x - lx) (s.y - ly) s.type ++ encodeGo s.x s.y rest

/-- `DSTWriter.encodeStitches`: a leading `(0,0)` jump record, the encoded
stitch deltas, and a trailing `(0,0)` end-of-file record. -/
def encodeStitches (l : List StitchZ) : List ℕ :=
  encodeStitchDelta 0 0 .jump ++ encodeGo 0 0 l ++ encodeStitchDelta 0 0 .endS

/-- `DSTWriter.normalizeCoordinates`: translate by the coordinate minima and
scale by `PPMM = 10`, rounding to integers. -/
def dstNormalize (p : PatternQ) : List StitchZ :=
  let minX := listMin 0 (p.stitches.map (·.x))
  let minY := listMin 0 (p.stitches.map (·.y))
  p.stitches.map fun s =>
    { x := jsRound ((s.x - minX) * 10)
      y := jsRound ((s.y - minY) * 10)
      type := s.type
      color := s.color }

/-- CRLF-join of the DST header lines (`join('\r\n') + '\r\n'` appends one
separator after every line). -/
def joinCRLF (lines : List (List Char)) : List Char :=
  (lines.map (· ++ ['\r', '\n'])).flatten

/-- The header text built by `DSTWriter.createHeader` from the normalized
stitches (bounds are the coordinate minima/maxima; the stitch count is the
pattern's). -/
def headerChars (stitches : List StitchZ) : List Char :=
  let xs := stitches.map (·.x)
  let ys := stitches.map (·.y)
  joinCRLF
    [ "LA:Design Studio".toList
    , "ST:".toList ++ jsNumChars stitches.length
    , "CO:1".toList
    , "+X:".toList ++ intChars (listMax 0 xs)
    , "-X:".toList ++ jsNumChars (listMin 0 xs).natAbs
    , "+Y:".toList ++ intChars (listMax 0 ys)
    , "-Y:".toList ++ jsNumChars (listMin 0 ys).natAbs
    , "AX:+0".toList
    , "AY:+0".toList
    , "MX:+0".toList
    , "MY:+0".toList
    , "PD:******".toList ]

/-- `DSTWriter.validatePattern`.  The `isNaN` coordinate test is always
false in the exact-rational embedding (see the `ENum` section for the model
in which it can fire); `!pattern.dimensions?.width` is falsiness of the
number, i.e. equality with `0`. -/
def dstValidate (p : PatternQ) : Option String :=
  if p.stitches.length = 0 then some "Pattern has no stitches"
  else if 999999 < p.stitches.length then some "Pattern has too many stitches"
  else if p.width = 0 ∨ p.height = 0 then some "Invalid pattern dimensions"
  else if 400 < p.width ∨ 400 < p.height then
    some "Pattern dimensions exceed maximum size of 400mm"
  else none

/-- `DSTWriter.write`: validate, normalize, build the 512-byte header
(zero-padded; error if the text exceeds `HEADER_SIZE = 512`), append the
encoded stitch records. -/
def dstWrite (p : PatternQ) : Except String (List ℕ) :=
  match dstValidate p with
  | some e => .error e
  | none =>
    let ns := dstNormalize p
    let hc := headerChars ns
    if 512 < hc.length then .error "Header size exceeds maximum allowed"
    else .ok ((hc.map Char.toNat ++ List.replicate (512 - hc.length) 0) ++ encodeStitches ns)

/-- Number of 3-byte records `encodeOneDelta` emits for one delta. -/
def groupCount (dx dy : ℤ) : ℕ :=
  if 121 < dx.natAbs ∨ 121 < dy.natAbs then splitSteps dx dy else 1

/-- Record count of the body loop. -/
def emitGo (lx ly : ℤ) : List StitchZ → ℕ
  | [] => 0
  | s :: rest => groupCount (s.x - lx) (s.y - ly) + emitGo s.x s.y rest

/-- The `stitchesEmitted` count of the specification: one leading `(0,0)`
jump record, one record (or split group) per logical stitch, one trailing
`(0,0)` end record, all counted on the normalized pattern. -/
def stitchesEmitted (p : PatternQ) : ℕ :=
  2 + emitGo 0 0 (dstNormalize p)

lemma encodeStitchDelta_length (dx dy : ℤ) (t : SType) :
    (encodeStitchDelta dx dy t).length = 3 := rfl

lemma range_flatMap_length_three (n : ℕ) (f : ℕ → List ℕ)
    (h : ∀ i, (f i).length = 3) :
    ((List.range n).flatMap f).length = 3 * n := by
  induction n with
  | zero => simp
  | succ k ih => rw [List.range_succ]; simp [h, ih, Nat.mul_succ]

lemma encodeOneDelta_length (dx dy : ℤ) (t : SType) :
    (encodeOneDelta dx dy t).length = 3 * groupCount dx dy := by
  unfold encodeOneDelta groupCount
  by_cases h : 121 < dx.natAbs ∨ 121 < dy.natAbs
  · rw [if_pos h, if_pos h]
    exact range_flatMap_length_three _ _ fun i => rfl
  · rw [if_neg h, if_neg h, encodeStitchDelta_length]

lemma encodeGo_length (l : List StitchZ) :
    ∀ lx ly : ℤ, (encodeGo lx ly l).length = 3 * emitGo lx ly l := by
  induction l with
  | nil => intro lx ly; rfl
  | cons s rest ih =>
    intro lx ly
    simp [encodeGo, emitGo, encodeOneDelta_length, ih, Nat.mul_add]

/-- C2: for every pattern accepted by `DSTWriter.write`, the output byte
length is `512 + 3 · stitchesEmitted`, where `stitchesEmitted` counts one
leading `(0,0)` jump record, one record (or split group) per logical
stitch, and one trailing `(0,0)` end record. -/
theorem c2_dst_output_length (p : PatternQ) (b : List ℕ)
    (h : dstWrite p = .ok b) : b.length = 512 + 3 * stitchesEmitted p := by
  unfold dstWrite at h
  cases hv : dstValidate p with
  | some e => rw [hv] at h; exact absurd h (by simp)
  | none =>
    rw [hv] at h
    simp only at h
    by_cases h5 : 512 < (headerChars (dstNormalize p)).length
    · rw [if_pos h5] at h; exact absurd h (by simp)
    · rw [if_neg h5] at h
      rw [Except.ok.injEq] at h
      subst h
      have hlen := encodeGo_length (dstNormalize p) 0 0
      simp only [stitchesEmitted, encodeStitches, List.length_append,
        List.length_map, List.length_replicate, encodeStitchDelta_length, hlen]
      omega

/-- Concrete single-stitch pattern of the specification scenario: one
Normal stitch at `(0,0)`, dimensions `100 × 100`. -/
def c2pat : PatternQ :=
  { stitches := [{ x := 0, y := 0, type := .normal, color := "#000000" }]
  , colors := ["#000000"], width := 100, height := 100 }

lemma c2pat_normalize :
    dstNormalize c2pat = [{ x := 0, y := 0, type := .normal, color := "#000000" }] := by
  unfold dstNormalize c2pat
  simp only [List.map_cons, List.map_nil, listMin]
  norm_num [jsRound]

theorem c2_witness :
    ∃ b, dstWrite c2pat = .ok b ∧ b.length = 512 + 3 * stitchesEmitted c2pat ∧
      b.length = 521 := by
  have hval : dstValidate c2pat = none := by
    unfold dstValidate c2pat; norm_num
  have hhead : ¬ 512 < (headerChars (dstNormalize c2pat)).length := by
    rw [c2pat_normalize]; decide
  have hok : dstWrite c2pat =
      .ok (((headerChars (dstNormalize c2pat)).map Char.toNat ++
        List.replicate (512 - (headerChars (dstNormalize c2pat)).length) 0) ++
        encodeStitches (dstNormalize c2pat)) := by
    unfold dstWrite
    rw [hval]
    simp only
    rw [if_neg hhead]
  have hemit : stitchesEmitted c2pat = 3 := by
    unfold stitchesEmitted
    rw [c2pat_normalize]
    decide
  refine ⟨_, hok, c2_dst_output_length c2pat _ hok, ?_⟩
  rw [c2_dst_output_length c2pat _ hok, hemit]

lemma splitSteps_123_0 : splitSteps 123 0 = 2 := by
  unfold splitSteps
  have h1 : ⌈((123 : ℤ).natAbs : ℚ) / 121⌉ = 2 := by
    rw [Int.ceil_eq_iff] <;> norm_num
  have h2 : ⌈((0 : ℤ).natAbs : ℚ) / 121⌉ = 0 := by norm_num
  rw [h1, h2]
  rfl

lemma stepVal_123_2_0 : stepVal 123 2 0 = 62 := by
  unfold stepVal jsRound
  rw [Int.floor_eq_iff] <;> norm_num

lemma stepVal_123_2_1 : stepVal 123 2 1 = 62 := by
  unfold stepVal jsRound
  rw [Int.floor_eq_iff] <;> norm_num

lemma stepVal_zero (steps i : ℕ) : stepVal 0 steps i = 0 := by
  unfold stepVal jsRound
  norm_num

/-- C3 counterexample: for the delta `(123, 0)` the encoder emits 2 jump
records carrying `62` each (`Math.round` of the rational difference
`61.5`), so the emitted deltas sum to `124`, not `123`; the claim's
difference-of-rounds formula would instead give `61` for the second
record.  The claimed telescoping property fails. -/
theorem c3_counterexample :
    encodeOneDelta 123 0 .normal =
        encodeStitchDelta 62 0 .jump ++ encodeStitchDelta 62 0 .jump ∧
      stepVal 123 2 0 + stepVal 123 2 1 = 124 ∧
      jsRound ((123 : ℚ) * (1 + 1) / 2) - jsRound ((123 : ℚ) * 1 / 2) = 61 ∧
      stepVal 123 2 1 ≠
        jsRound ((123 : ℚ) * (1 + 1) / 2) - jsRound ((123 : ℚ) * 1 / 2) ∧
      (124 : ℤ) ≠ 123 := by
  have hr1 : jsRound ((123 : ℚ) * (1 + 1) / 2) = 123 := by
    unfold jsRound; rw [Int.floor_eq_iff] <;> norm_num
  have hr2 : jsRound ((123 : ℚ) * 1 / 2) = 62 := by
    unfold jsRound; rw [Int.floor_eq_iff] <;> norm_num
  refine ⟨?_, ?_, ?_, ?_, by decide⟩
  · unfold encodeOneDelta
    rw [if_pos (by decide), splitSteps_123_0]
    have : List.range 2 = [0, 1] := by decide
    rw [this]
    simp only [List.flatMap_cons, List.flatMap_nil, List.append_nil]
    rw [stepVal_123_2_0, stepVal_123_2_1, stepVal_zero, stepVal_zero]
  · rw [stepVal_123_2_0, stepVal_123_2_1]; decide
  · rw [hr1, hr2]; decide
  · rw [stepVal_123_2_1, hr1, hr2]; decide

lemma lor_and_self (a m : ℕ) : (a ||| m) &&& m = m := by
  apply Nat.eq_of_testBit_eq
  intro i
  simp only [Nat.testBit_and, Nat.testBit_or]
  cases h : m.testBit i <;> simp [h]

lemma jump_flatMap_thirdByte (il : List ℕ) (f g : ℕ → ℤ) :
    ∀ j, ((il.flatMap fun i => encodeStitchDelta (f i) (g i) .jump)).getD
      (3 * j + 2) 0x83 &&& 0x83 = 0x83 := by
  induction il with
  | nil => intro j; simp
  | cons i is ih =>
    intro j
    rw [List.flatMap_cons]
    show ((encodeStitchDelta (f i) (g i) .jump) ++ _).getD (3 * j + 2) 0x83 &&& 0x83 = 0x83
    cases j with
    | zero =>
      simp only [encodeStitchDelta, typeBits]
      exact lor_and_self _ 0x83
    | succ k =>
      have hidx : 3 * (k + 1) + 2 = 3 * k + 2 + 1 + 1 + 1 := by ring
      rw [hidx]
      simp only [encodeStitchDelta, List.cons_append, List.nil_append,
        List.getD_cons_succ]
      exact ih k

/-- C3 amended: when `|dx| > 121` or `|dy| > 121` the encoder emits
`steps = max(ceil(|dx|/121), ceil(|dy|/121))` jump records (3 bytes each,
all carrying the jump control bits `0x83`) whose `i`-th record carries
`round(dx·(i+1)/steps − dx·i/steps)` on x — the round of the incremental
difference, not the difference of rounds — so the emitted deltas need not
sum to `(dx, dy)`; the `(300, 0)` Normal delta still yields 3 jump records
with summed dx `300` and no separate Normal record. -/
theorem c3_amended :
    (∀ (dx dy : ℤ) (t : SType), 121 < dx.natAbs ∨ 121 < dy.natAbs →
      encodeOneDelta dx dy t =
          (List.range (splitSteps dx dy)).flatMap (fun i =>
            encodeStitchDelta (stepVal dx (splitSteps dx dy) i)
              (stepVal dy (splitSteps dx dy) i) .jump) ∧
        (encodeOneDelta dx dy t).length = 3 * splitSteps dx dy ∧
        (∀ j, (encodeOneDelta dx dy t).getD (3 * j + 2) 0x83 &&& 0x83 = 0x83)) ∧
      splitSteps 300 0 = 3 ∧
      encodeOneDelta 300 0 .normal =
        encodeStitchDelta 100 0 .jump ++
          (encodeStitchDelta 100 0 .jump ++ encodeStitchDelta 100 0 .jump) ∧
      stepVal 300 3 0 + stepVal 300 3 1 + stepVal 300 3 2 = 300 := by
  have hsplit : ∀ (dx dy : ℤ) (t : SType), 121 < dx.natAbs ∨ 121 < dy.natAbs →
      encodeOneDelta dx dy t =
        (List.range (splitSteps dx dy)).flatMap (fun i =>
          encodeStitchDelta (stepVal dx (splitSteps dx dy) i)
            (stepVal dy (splitSteps dx dy) i) .jump) := by
    intro dx dy t h
    unfold encodeOneDelta
    rw [if_pos h]
  have hs300 : splitSteps 300 0 = 3 := by
    unfold splitSteps
    have h1 : ⌈((300 : ℤ).natAbs : ℚ) / 121⌉ = 3 := by
      rw [Int.ceil_eq_iff] <;> norm_num
    have h2 : ⌈((0 : ℤ).natAbs : ℚ) / 121⌉ = 0 := by norm_num
    rw [h1, h2]
    rfl
  have hv300 : ∀ i : ℕ, i < 3 → stepVal 300 3 i = 100 := by
    intro i hi
    interval_cases i <;>
      (unfold stepVal jsRound; rw [Int.floor_eq_iff] <;> norm_num)
  refine ⟨?_, hs300, ?_, ?_⟩
  · intro dx dy t h
    refine ⟨hsplit dx dy t h, ?_, ?_⟩
    · rw [encodeOneDelta_length]
      unfold groupCount
      rw [if_pos h]
    · intro j
      rw [hsplit dx dy t h]
      exact jump_flatMap_thirdByte _ _ _ j
  · rw [hsplit 300 0 .normal (by decide), hs300]
    have hr : List.range 3 = [0, 1, 2] := by decide
    rw [hr]
    simp only [List.flatMap_cons, List.flatMap_nil, List.append_nil]
    rw [hv300 0 (by decide), hv300 1 (by decide), hv300 2 (by decide),
      stepVal_zero, stepVal_zero, stepVal_zero]
  · rw [hv300 0 (by decide), hv300 1 (by decide), hv300 2 (by decide)]
    decide

theorem c3_amended_witness :
    (121 < (300 : ℤ).natAbs ∨ 121 < (0 : ℤ).natAbs) ∧
      (encodeOneDelta 300 0 .normal).length = 3 * splitSteps 300 0 := by
  refine ⟨by decide, ?_⟩
  exact (c3_amended.1 300 0 .normal (by decide)).2.1

/-- C4: for `|dx| ≤ 121` and `|dy| ≤ 121` the clamp is the identity and the
3-byte record is `b0 = |dy| & 0x0F`, `b1 = |dx| & 0x0F`,
`b2 = ((|dy| & 0xF0) >> 4) | ((|dx| & 0xF0) >> 4)` with bit `0x20` set iff
`dx < 0`, bit `0x40` set iff `dy < 0`, and the type bits OR-ed in
(`Normal 0x03`, `Jump 0x83`, `Stop 0xC3`, `End 0xF3`). -/
theorem c4_delta_encoding (dx dy : ℤ) (t : SType)
    (hx : dx.natAbs ≤ 121) (hy : dy.natAbs ≤ 121) :
    encodeStitchDelta dx dy t =
      [ dy.natAbs &&& 0x0F
      , dx.natAbs &&& 0x0F
      , ((((dy.natAbs &&& 0xF0) >>> 4) ||| ((dx.natAbs &&& 0xF0) >>> 4))
          ||| (if dx < 0 then 0x20 else 0) ||| (if dy < 0 then 0x40 else 0))
          ||| typeBits t ] ∧
      typeBits .normal = 0x03 ∧ typeBits .jump = 0x83 ∧
      typeBits .stop = 0xC3 ∧ typeBits .endS = 0xF3 := by
  have hx1 : (-121 : ℤ) ≤ dx := by omega
  have hx2 : dx ≤ 121 := by omega
  have hy1 : (-121 : ℤ) ≤ dy := by omega
  have hy2 : dy ≤ 121 := by omega
  have cxe : max (-121) (min 121 dx) = dx := by
    rw [min_eq_right hx2, max_eq_right hx1]
  have cye : max (-121) (min 121 dy) = dy := by
    rw [min_eq_right hy2, max_eq_right hy1]
  refine ⟨?_, rfl, rfl, rfl, rfl⟩
  unfold encodeStitchDelta
  rw [cxe, cye]

theorem c4_witness :
    ((-1 : ℤ).natAbs ≤ 121 ∧ (-1 : ℤ).natAbs ≤ 121) ∧
      encodeStitchDelta (-1) (-1) .normal = [1, 1, 0x63] := by
  refine ⟨by decide, ?_⟩
  rw [(c4_delta_encoding (-1) (-1) .normal (by decide) (by decide)).1]
  decide

/-- An RGB triple with rational channel values (JavaScript numbers). -/
structure RGBq : Type where
  r : ℚ
  g : ℚ
  b : ℚ
  deriving DecidableEq

/-- One entry of the fixed thread palette (`THREAD_COLORS`). -/
structure ThreadColor : Type where
  name : String
  hex : String
  r : ℕ
  g : ℕ
  b : ℕ
  deriving DecidableEq

/-- The fixed 11-entry thread palette of `color-processor`. -/
def THREAD_COLORS : List ThreadColor :=
  [ ⟨"Black", "#000000", 0, 0, 0⟩
  , ⟨"Dark Gray", "#404040", 64, 64, 64⟩
  , ⟨"Medium Gray", "#808080", 128, 128, 128⟩
  , ⟨"Light Gray", "#C0C0C0", 192, 192, 192⟩
  , ⟨"White", "#FFFFFF", 255, 255, 255⟩
  , ⟨"Red", "#FF0000", 255, 0, 0⟩
  , ⟨"Green", "#00FF00", 0, 255, 0⟩
  , ⟨"Blue", "#0000FF", 0, 0, 255⟩
  , ⟨"Yellow", "#FFFF00", 255, 255, 0⟩
  , ⟨"Cyan", "#00FFFF", 0, 255, 255⟩
  , ⟨"Magenta", "#FF00FF", 255, 0, 255⟩ ]

/-- `GRAYSCALE_COLORS = THREAD_COLORS.slice(0, 5)`. -/
def GRAYSCALE_COLORS : List ThreadColor := THREAD_COLORS.take 5

/-- The rational RGB triple of a palette entry. -/
def tcRGB (t : ThreadColor) : RGBq := ⟨t.r, t.g, t.b⟩

/-- `ColorProcessor.calculateColorDistance`, the CIE94-flavoured metric of
the source (chroma intentionally omits the green channel).  `Math.sqrt` is
modelled by `Real.sqrt`, so the value lives in `ℝ`; every other
subexpression is exact rational arithmetic. -/
noncomputable def calculateColorDistance (p q : RGBq) : ℝ :=
  let l1 : ℚ := 0.2126 * p.r + 0.7152 * p.g + 0.0722 * p.b
  let l2 : ℚ := 0.2126 * q.r + 0.7152 * q.g + 0.0722 * q.b
  let dl : ℚ := l1 - l2
  let da : ℚ := p.r - q.r
  let db : ℚ := p.b - q.b
  let c1c : ℝ := Real.sqrt ((p.r * p.r + p.b * p.b : ℚ) : ℝ)
  let c2c : ℝ := Real.sqrt ((q.r * q.r + q.b * q.b : ℚ) : ℝ)
  let dc : ℝ := c1c - c2c
  let dh : ℝ := Real.sqrt (max 0 (((da * da + db * db : ℚ) : ℝ) - dc * dc))
  let sc : ℝ := 1 + 0.045 * c1c
  let sh : ℝ := 1 + 0.015 * c1c
  Real.sqrt (((dl : ℝ) / 1) ^ 2 + (dc / sc) ^ 2 + (dh / sh) ^ 2)

/-- The scan loop of `ColorProcessor.findClosestColor`: starting from
`closestColor = palette[0]` with `minDistance = Infinity`, the first
comparison always succeeds, so the loop is the fold below with the head as
the initial best.  A strict `<` keeps the earlier entry on ties. -/
noncomputable def fccGo (c : RGBq) (best : ThreadColor) : List ThreadColor → ThreadColor
  | [] => best
  | q :: rest =>
    if calculateColorDistance c (tcRGB q) < calculateColorDistance c (tcRGB best) then
      fccGo c q rest
    else
      fccGo c best rest

/-- `ColorProcessor.findClosestColor` (the `[]` fallback is unreachable:
both palettes are non-empty constants, and `palette[0]` of an empty array
would be `undefined` in the source). -/
noncomputable def findClosestColor (c : RGBq) : List ThreadColor → ThreadColor
  | [] => ⟨"Black", "#000000", 0, 0, 0⟩
  | p :: rest => fccGo c p rest

/-- One RGBA pixel of an `ImageData` buffer. -/
structure Pixel : Type where
  r : ℕ
  g : ℕ
  b : ℕ
  a : ℕ
  deriving DecidableEq

/-- An `ImageData`: width, height and the RGBA pixel list. -/
structure Image : Type where
  width : ℕ
  height : ℕ
  pixels : List Pixel
  deriving DecidableEq

/-- The `colorMode` argument of `ColorProcessor.processImage`. -/
inductive ColorMode : Type
  | grayscale
  | color
  deriving DecidableEq

/-- BT.601 luminance with `Math.round`, as computed in the grayscale branch
of `processImage`. -/
def grayLum (px : Pixel) : ℤ :=
  jsRound (0.299 * px.r + 0.587 * px.g + 0.114 * px.b : ℚ)

/-- The grey triple `(Y, Y, Y)` matched against the palette in grayscale
mode. -/
def grayTriple (px : Pixel) : RGBq :=
  ⟨(grayLum px : ℚ), (grayLum px : ℚ), (grayLum px : ℚ)⟩

/-- The palette entry `processImage` picks for one pixel. -/
noncomputable def pickColor (mode : ColorMode) (px : Pixel) : ThreadColor :=
  match mode with
  | .grayscale => findClosestColor (grayTriple px) GRAYSCALE_COLORS
  | .color => findClosestColor ⟨px.r, px.g, px.b⟩ THREAD_COLORS

/-- Overwrite a pixel's RGB with a palette entry's RGB (alpha untouched). -/
def applyTC (px : Pixel) (t : ThreadColor) : Pixel :=
  { r := t.r, g := t.g, b := t.b, a := px.a }

/-- Insertion-ordered de-duplicating accumulator: the model of adding to the
JavaScript `Set` `usedColors` (later read back with `Array.from`). -/
def addUnique (l : List String) (x : String) : List String :=
  if x ∈ l then l else l ++ [x]

/-- `ColorProcessor.processImage`: map every pixel to its chosen palette
entry's RGB and collect the used hex codes in first-use order. -/
noncomputable def processImage (img : Image) (mode : ColorMode) : Image × List String :=
  ( { width := img.width, height := img.height
    , pixels := img.pixels.map fun px => applyTC px (pickColor mode px) }
  , img.pixels.foldl (fun acc px => addUnique acc (pickColor mode px).hex) [] )

/-- Numeric value of a hexadecimal digit character. -/
def hexDigitVal (c : Char) : ℕ :=
  if '0' ≤ c ∧ c ≤ '9' then c.toNat - 48
  else if 'a' ≤ c ∧ c ≤ 'f' then c.toNat - 87
  else if 'A' ≤ c ∧ c ≤ 'F' then c.toNat - 55
  else 0

/-- Parse a `#RRGGBB` hex color into an RGB triple (`(0,0,0)` otherwise). -/
def parseHexRGB (s : String) : RGBq :=
  match s.toList with
  | '#' :: h1 :: h2 :: h3 :: h4 :: h5 :: h6 :: [] =>
    ⟨(16 * hexDigitVal h1 + hexDigitVal h2 : ℕ)
    , (16 * hexDigitVal h3 + hexDigitVal h4 : ℕ)
    , (16 * hexDigitVal h5 + hexDigitVal h6 : ℕ)⟩
  | _ => ⟨0, 0, 0⟩

/-- Modelled from the spec: `ColorProcessor.validateThreadColor` is called
by `FormatConverter.convertToFormat` but is not part of the source under
`src/` (only `processImage`, `findClosestColor` and
`calculateColorDistance` are).  Spec §4.10 step 2: "Replace each color by
its nearest thread-palette entry (same palette as §4.1)". -/
noncomputable def validateThreadColor (c : String) : String :=
  (findClosestColor (parseHexRGB c) THREAD_COLORS).hex

lemma foldl_min_le_acc {β : Type} [LinearOrder β] (l : List β) :
    ∀ acc : β, l.foldl min acc ≤ acc := by
  induction l with
  | nil => intro acc; exact le_refl acc
  | cons x xs ih =>
    intro acc
    calc (x :: xs).foldl min acc = xs.foldl min (min acc x) := rfl
    _ ≤ min acc x := ih _
    _ ≤ acc := min_le_left _ _

lemma foldl_min_le_mem {β : Type} [LinearOrder β] (l : List β) :
    ∀ (acc a : β), a ∈ l → l.foldl min acc ≤ a := by
  induction l with
  | nil => intro acc a ha; exact absurd ha (List.not_mem_nil a)
  | cons x xs ih =>
    intro acc a ha
    rcases List.mem_cons.mp ha with rfl | h
    · calc (a :: xs).foldl min acc = xs.foldl min (min acc a) := rfl
      _ ≤ min acc a := foldl_min_le_acc _ _
      _ ≤ a := min_le_right _ _
    · exact ih _ a h

lemma listMin_le {β : Type} [LinearOrder β] (d : β) (l : List β) :
    ∀ a ∈ l, listMin d l ≤ a := by
  cases l with
  | nil => intro a ha; exact absurd ha (List.not_mem_nil a)
  | cons x xs =>
    intro a ha
    rcases List.mem_cons.mp ha with rfl | h
    · exact foldl_min_le_acc xs a
    · exact foldl_min_le_mem xs x a h

lemma foldl_min_ge {β : Type} [LinearOrder β] (l : List β) :
    ∀ (acc B : β), B ≤ acc → (∀ a ∈ l, B ≤ a) → B ≤ l.foldl min acc := by
  induction l with
  | nil => intro acc B hB _; exact hB
  | cons x xs ih =>
    intro acc B hB hall
    show B ≤ xs.foldl min (min acc x)
    refine ih _ _ (le_min hB (hall x (List.mem_cons_self x xs))) ?_
    intro a ha
    exact hall a (List.mem_cons_of_mem x ha)

lemma listMin_ge {β : Type} [LinearOrder β] (d : β) (x : β) (xs : List β) (B : β)
    (hall : ∀ a ∈ x :: xs, B ≤ a) : B ≤ listMin d (x :: xs) := by
  unfold listMin
  exact foldl_min_ge xs x B (hall x (List.mem_cons_self x xs))
    fun a ha => hall a (List.mem_cons_of_mem x ha)

lemma foldl_max_le {β : Type} [LinearOrder β] (l : List β) :
    ∀ (acc B : β), acc ≤ B → (∀ a ∈ l, a ≤ B) → l.foldl max acc ≤ B := by
  induction l with
  | nil => intro acc B hB _; exact hB
  | cons x xs ih =>
    intro acc B hB hall
    show xs.foldl max (max acc x) ≤ B
    refine ih _ _ (max_le hB (hall x (List.mem_cons_self x xs))) ?_
    intro a ha
    exact hall a (List.mem_cons_of_mem x ha)

lemma listMax_le {β : Type} [LinearOrder β] (d : β) (x : β) (xs : List β) (B : β)
    (hall : ∀ a ∈ x :: xs, a ≤ B) : listMax d (x :: xs) ≤ B := by
  unfold listMax
  exact foldl_max_le xs x B (hall x (List.mem_cons_self x xs))
    fun a ha => hall a (List.mem_cons_of_mem x ha)

lemma foldl_max_ge_acc {β : Type} [LinearOrder β] (l : List β) :
    ∀ acc : β, acc ≤ l.foldl max acc := by
  induction l with
  | nil => intro acc; exact le_refl acc
  | cons x xs ih =>
    intro acc
    calc acc ≤ max acc x := le_max_left _ _
    _ ≤ xs.foldl max (max acc x) := ih _
    _ = (x :: xs).foldl max acc := rfl

lemma listMax_ge {β : Type} [LinearOrder β] (d : β) (x : β) (xs : List β) :
    x ≤ listMax d (x :: xs) := by
  unfold listMax
  exact foldl_max_ge_acc xs x

lemma decDigitsAux_length_le :
    ∀ (k : ℕ) (fuel : ℕ) (n : ℕ) (acc : List Char), n < 10 ^ (k + 1) →
      k + 1 ≤ fuel → (decDigitsAux fuel n acc).length ≤ (k + 1) + acc.length := by
  intro k
  induction k with
  | zero =>
    intro fuel n acc hn hf
    obtain ⟨f, rfl⟩ := Nat.exists_eq_add_of_le hf
    show (decDigitsAux (1 + f) n acc).length ≤ 1 + acc.length
    have h10 : n < 10 := by omega
    rw [Nat.add_comm 1 f]
    show (decDigitsAux (f + 1) n acc).length ≤ 1 + acc.length
    unfold decDigitsAux
    rw [if_pos h10]
    simp [Nat.add_comm]
  | succ k ih =>
    intro fuel n acc hn hf
    obtain ⟨f, rfl⟩ := Nat.exists_eq_add_of_le hf
    rw [Nat.add_comm (k + 1 + 1) f]
    show (decDigitsAux (f + (k + 1) + 1) n acc).length ≤ (k + 1 + 1) + acc.length
    unfold decDigitsAux
    by_cases h10 : n < 10
    · rw [if_pos h10]
      simp
      omega
    · rw [if_neg h10]
      have hdiv : n / 10 < 10 ^ (k + 1) := by
        have : n < 10 ^ (k + 1) * 10 := by
          calc n < 10 ^ (k + 1 + 1) := hn
          _ = 10 ^ (k + 1) * 10 := by ring
        omega
      have := ih (f + (k + 1)) (n / 10) (Char.ofNat (48 + n % 10) :: acc) hdiv (by omega)
      calc (decDigitsAux (f + (k + 1)) (n / 10) (Char.ofNat (48 + n % 10) :: acc)).length
          ≤ (k + 1) + (Char.ofNat (48 + n % 10) :: acc).length := this
      _ = (k + 1 + 1) + acc.length := by simp; omega

lemma decDigits_length_le (k n : ℕ) (h : n < 10 ^ (k + 1)) :
    (decDigits n).length ≤ k + 1 := by
  by_cases hk : k ≤ n
  · have := decDigitsAux_length_le k (n + 1) n [] h (by omega)
    simpa [decDigits] using this
  · have h2 : n < 2 ^ n := Nat.lt_two_pow n
    have h3 : (2 : ℕ) ^ n ≤ 2 ^ (n + 1) := Nat.pow_le_pow_right (by omega) (by omega)
    have h4 : (2 : ℕ) ^ (n + 1) ≤ 10 ^ (n + 1) := Nat.pow_le_pow_left (by omega) _
    have hn : n < 10 ^ (n + 1) := by omega
    have h5 := decDigitsAux_length_le n (n + 1) n [] hn (by omega)
    simp only [List.length_nil, Nat.add_zero] at h5
    unfold decDigits
    omega

lemma jsNumChars_length_le (n : ℕ) (h : n < 10 ^ 304) :
    (jsNumChars n).length ≤ 21 := by
  unfold jsNumChars
  by_cases h21 : n < 10 ^ 21
  · rw [if_pos h21]
    exact decDigits_length_le 20 n h21
  · rw [if_neg h21]
    have hL : (decDigits n).length ≤ 304 := decDigits_length_le 303 n h
    have hinner : (decDigits ((decDigits n).length - 1)).length ≤ 3 := by
      refine decDigits_length_le 2 _ ?_
      omega
    simp only [List.length_cons]
    omega

lemma intChars_length_le (i : ℤ) (h0 : 0 ≤ i) (h : i.natAbs < 10 ^ 304) :
    (intChars i).length ≤ 21 := by
  unfold intChars
  rw [if_neg (by omega)]
  exact jsNumChars_length_le i.natAbs h

lemma jsRound_le (q : ℚ) (z : ℤ) (h : q + 1 / 2 < (z : ℚ) + 1) : jsRound q ≤ z := by
  unfold jsRound
  have : ⌊q + 1 / 2⌋ < z + 1 := by
    rw [Int.floor_lt]
    push_cast
    linarith
  omega

lemma jsRound_ge (q : ℚ) (z : ℤ) (h : (z : ℚ) ≤ q + 1 / 2) : z ≤ jsRound q := by
  unfold jsRound
  rw [Int.le_floor]
  exact h

lemma jsRound_nonneg (q : ℚ) (h : 0 ≤ q) : 0 ≤ jsRound q :=
  jsRound_ge q 0 (by linarith)

/-- `FormatConverter.validatePattern` (the `isNaN` test is always false in
the exact-rational embedding; `!pattern.dimensions?.width` is falsiness,
i.e. equality with `0`). -/
def fcValidate (p : PatternQ) : Option String :=
  if p.stitches.length = 0 then some "Pattern must contain stitches"
  else if p.width = 0 ∨ p.height = 0 then some "Pattern must have valid dimensions"
  else if p.colors.length = 0 then some "Pattern must have at least one color"
  else none

/-- `FormatConverter.validateFormatLimits` for the `dst` entry of
`FORMAT_LIMITS`: `maxStitches 999999`, `maxColors 1`, `maxDimension 400`. -/
def dstLimitsCheck (p : PatternQ) : Option String :=
  if 999999 < p.stitches.length then some "Pattern has too many stitches for DST format"
  else if 1 < p.colors.length then some "Pattern has too many colors for DST format"
  else if 400 < max p.width p.height then
    some "Pattern dimensions exceed maximum allowed for DST format"
  else none

/-- The color replacement step of `convertToFormat`: every pattern color
and every stitch color is passed through `validateThreadColor`. -/
noncomputable def withValidatedColors (p : PatternQ) : PatternQ :=
  { p with
    colors := p.colors.map validateThreadColor
    stitches := p.stitches.map fun s => { s with color := validateThreadColor s.color } }

/-- `FormatConverter.convertToMachineFormat`: translate coordinates to a
non-negative origin and multiply coordinates and dimensions by 10, rounding
to integers (kept as integer-valued rationals, as the writer re-processes
them). -/
def toMachine (p : PatternQ) : PatternQ :=
  let minX := listMin 0 (p.stitches.map (·.x))
  let minY := listMin 0 (p.stitches.map (·.y))
  { p with
    stitches := p.stitches.map fun s =>
      { s with
        x := (jsRound ((s.x - minX) * 10) : ℚ)
        y := (jsRound ((s.y - minY) * 10) : ℚ) }
    width := (jsRound (p.width * 10) : ℚ)
    height := (jsRound (p.height * 10) : ℚ) }

/-- `FormatConverter.convertToFormat(pattern, 'dst')`: validate, replace
colors by thread colors, check the DST format limits, convert to machine
coordinates and dispatch to `DSTWriter.write`.  `ProcessingError`s thrown
by the writer are rethrown unchanged. -/
noncomputable def convertDst (p : PatternQ) : Except String (List ℕ) :=
  match fcValidate p with
  | some e => .error e
  | none =>
    let vp := withValidatedColors p
    match dstLimitsCheck vp with
    | some e => .error e
    | none => dstWrite (toMachine vp)

/-- A pattern satisfying every hypothesis of claim C1 as stated: one Normal
stitch, finite coordinates, exactly one color, dimensions `100 × 100` mm
(both at most 400 mm). -/
def c1pat : PatternQ :=
  { stitches := [{ x := 0, y := 0, type := .normal, color := "#000000" }]
  , colors := ["#000000"], width := 100, height := 100 }

lemma c1pat_fcValidate : fcValidate c1pat = none := by
  unfold fcValidate c1pat
  norm_num

lemma c1pat_limits : dstLimitsCheck (withValidatedColors c1pat) = none := by
  unfold dstLimitsCheck withValidatedColors c1pat
  norm_num

lemma c1pat_machine_width : (toMachine (withValidatedColors c1pat)).width = 1000 := by
  unfold toMachine withValidatedColors c1pat
  simp only
  norm_num [jsRound]

lemma c1pat_machine_height : (toMachine (withValidatedColors c1pat)).height = 1000 := by
  unfold toMachine withValidatedColors c1pat
  simp only
  norm_num [jsRound]

lemma c1pat_machine_len : (toMachine (withValidatedColors c1pat)).stitches.length = 1 := by
  unfold toMachine withValidatedColors c1pat
  simp

/-- C1 counterexample: `c1pat` meets all conditions of the claim (there
is a stitch, one color, at most 999999 stitches, width and height at most
400 mm), yet `convertToFormat(pattern, 'dst')` raises an error: the
machine-format conversion multiplies dimensions by 10 (here to 1000) and
`DSTWriter.validatePattern` then rejects them against its 400 limit. -/
theorem c1_counterexample :
    (c1pat.stitches ≠ [] ∧ c1pat.stitches.length ≤ 999999 ∧
      c1pat.colors.length = 1 ∧ c1pat.width ≤ 400 ∧ c1pat.height ≤ 400) ∧
      convertDst c1pat = .error "Pattern dimensions exceed maximum size of 400mm" := by
  constructor
  · refine ⟨by decide, by decide, by decide, ?_, ?_⟩ <;> norm_num [c1pat]
  · have hval : dstValidate (toMachine (withValidatedColors c1pat)) =
        some "Pattern dimensions exceed maximum size of 400mm" := by
      unfold dstValidate
      rw [c1pat_machine_len, c1pat_machine_width, c1pat_machine_height]
      norm_num
    have hwrite : dstWrite (toMachine (withValidatedColors c1pat)) =
        .error "Pattern dimensions exceed maximum size of 400mm" := by
      unfold dstWrite
      rw [hval]
    unfold convertDst
    rw [c1pat_fcValidate]
    simp only
    rw [c1pat_limits]
    exact hwrite

lemma listMax_le_of_ne {β : Type} [LinearOrder β] (d B : β) (l : List β)
    (hne : l ≠ []) (hall : ∀ a ∈ l, a ≤ B) : listMax d l ≤ B := by
  cases l with
  | nil => exact absurd rfl hne
  | cons x xs => exact listMax_le d x xs B hall

lemma listMax_nonneg {β : Type} [LinearOrder β] [Zero β] (d : β) (l : List β)
    (hne : l ≠ []) (hall : ∀ a ∈ l, 0 ≤ a) : 0 ≤ listMax d l := by
  cases l with
  | nil => exact absurd rfl hne
  | cons x xs => exact le_trans (hall x (List.mem_cons_self x xs)) (listMax_ge d x xs)

lemma listMin_ge_of_ne {β : Type} [LinearOrder β] (d B : β) (l : List β)
    (hne : l ≠ []) (hall : ∀ a ∈ l, B ≤ a) : B ≤ listMin d l := by
  cases l with
  | nil => exact absurd rfl hne
  | cons x xs => exact listMin_ge d x xs B hall

lemma listMin_le_of_mem {β : Type} [LinearOrder β] (d B : β) (l : List β)
    (hne : l ≠ []) (hall : ∀ a ∈ l, a ≤ B) : listMin d l ≤ B := by
  cases l with
  | nil => exact absurd rfl hne
  | cons x xs =>
    exact le_trans (listMin_le d (x :: xs) x (List.mem_cons_self x xs))
      (hall x (List.mem_cons_self x xs))

lemma headerChars_length_le (ns : List StitchZ) (hne : ns ≠ [])
    (hcount : ns.length ≤ 999999)
    (hx : ∀ i ∈ ns.map (fun s : StitchZ => s.x), 0 ≤ i ∧ i ≤ 10 ^ 303)
    (hy : ∀ i ∈ ns.map (fun s : StitchZ => s.y), 0 ≤ i ∧ i ≤ 10 ^ 303) :
    (headerChars ns).length ≤ 512 := by
  have hmx : ns.map (fun s : StitchZ => s.x) ≠ [] := by
    intro h; exact hne (List.map_eq_nil.mp h)
  have hmy : ns.map (fun s : StitchZ => s.y) ≠ [] := by
    intro h; exact hne (List.map_eq_nil.mp h)
  have hxmax0 : 0 ≤ listMax 0 (ns.map (fun s : StitchZ => s.x)) :=
    listMax_nonneg _ _ hmx fun a ha => (hx a ha).1
  have hxmaxB : listMax 0 (ns.map (fun s : StitchZ => s.x)) ≤ 10 ^ 303 :=
    listMax_le_of_ne _ _ _ hmx fun a ha => (hx a ha).2
  have hymax0 : 0 ≤ listMax 0 (ns.map (fun s : StitchZ => s.y)) :=
    listMax_nonneg _ _ hmy fun a ha => (hy a ha).1
  have hymaxB : listMax 0 (ns.map (fun s : StitchZ => s.y)) ≤ 10 ^ 303 :=
    listMax_le_of_ne _ _ _ hmy fun a ha => (hy a ha).2
  have hxmin0 : 0 ≤ listMin 0 (ns.map (fun s : StitchZ => s.x)) :=
    listMin_ge_of_ne _ _ _ hmx fun a ha => (hx a ha).1
  have hxminB : listMin 0 (ns.map (fun s : StitchZ => s.x)) ≤ 10 ^ 303 :=
    listMin_le_of_mem _ _ _ hmx fun a ha => (hx a ha).2
  have hymin0 : 0 ≤ listMin 0 (ns.map (fun s : StitchZ => s.y)) :=
    listMin_ge_of_ne _ _ _ hmy fun a ha => (hy a ha).1
  have hyminB : listMin 0 (ns.map (fun s : StitchZ => s.y)) ≤ 10 ^ 303 :=
    listMin_le_of_mem _ _ _ hmy fun a ha => (hy a ha).2
  have l1 : (intChars (listMax 0 (ns.map (fun s : StitchZ => s.x)))).length ≤ 21 :=
    intChars_length_le _ hxmax0 (by omega)
  have l2 : (intChars (listMax 0 (ns.map (fun s : StitchZ => s.y)))).length ≤ 21 :=
    intChars_length_le _ hymax0 (by omega)
  have l3 : (jsNumChars (listMin 0 (ns.map (fun s : StitchZ => s.x))).natAbs).length ≤ 21 :=
    jsNumChars_length_le _ (by omega)
  have l4 : (jsNumChars (listMin 0 (ns.map (fun s : StitchZ => s.y))).natAbs).length ≤ 21 :=
    jsNumChars_length_le _ (by omega)
  have l5 : (jsNumChars ns.length).length ≤ 21 := by
    refine jsNumChars_length_le _ ?_
    calc ns.length ≤ 999999 := hcount
    _ < 10 ^ 304 := by norm_num
  have c1 : ("LA:Design Studio".toList).length = 16 := by decide
  have c2 : ("ST:".toList).length = 3 := by decide
  have c3 : ("CO:1".toList).length = 4 := by decide
  have c4 : ("+X:".toList).length = 3 := by decide
  have c5 : ("-X:".toList).length = 3 := by decide
  have c6 : ("+Y:".toList).length = 3 := by decide
  have c7 : ("-Y:".toList).length = 3 := by decide
  have c8 : ("AX:+0".toList).length = 5 := by decide
  have c9 : ("AY:+0".toList).length = 5 := by decide
  have c10 : ("MX:+0".toList).length = 5 := by decide
  have c11 : ("MY:+0".toList).length = 5 := by decide
  have c12 : ("PD:******".toList).length = 9 := by decide
  unfold headerChars joinCRLF
  simp only [List.map_cons, List.map_nil, List.flatten_cons, List.flatten_nil,
    List.length_append, List.length_cons, List.length_nil,
    c1, c2, c3, c4, c5, c6, c7, c8, c9, c10, c11, c12]
  omega

lemma wvc_map_x (p : PatternQ) :
    (withValidatedColors p).stitches.map (fun s : StitchQ => s.x) =
      p.stitches.map (fun s : StitchQ => s.x) := by
  simp [withValidatedColors]

lemma wvc_map_y (p : PatternQ) :
    (withValidatedColors p).stitches.map (fun s : StitchQ => s.y) =
      p.stitches.map (fun s : StitchQ => s.y) := by
  simp [withValidatedColors]

lemma wvc_len (p : PatternQ) :
    (withValidatedColors p).stitches.length = p.stitches.length := by
  simp [withValidatedColors]

lemma toMachine_map_x (q : PatternQ) :
    (toMachine q).stitches.map (fun s : StitchQ => s.x) =
      q.stitches.map (fun s : StitchQ =>
        ((jsRound ((s.x - listMin 0 (q.stitches.map (fun u : StitchQ => u.x))) * 10) : ℤ) : ℚ)) := by
  simp [toMachine, List.map_map]

lemma toMachine_map_y (q : PatternQ) :
    (toMachine q).stitches.map (fun s : StitchQ => s.y) =
      q.stitches.map (fun s : StitchQ =>
        ((jsRound ((s.y - listMin 0 (q.stitches.map (fun u : StitchQ => u.y))) * 10) : ℤ) : ℚ)) := by
  simp [toMachine, List.map_map]

lemma toMachine_len (q : PatternQ) :
    (toMachine q).stitches.length = q.stitches.length := by
  simp [toMachine]

lemma dstNormalize_map_x (q : PatternQ) :
    (dstNormalize q).map (fun s : StitchZ => s.x) =
      q.stitches.map (fun s : StitchQ =>
        jsRound ((s.x - listMin 0 (q.stitches.map (fun u : StitchQ => u.x))) * 10)) := by
  simp [dstNormalize, List.map_map]

lemma dstNormalize_map_y (q : PatternQ) :
    (dstNormalize q).map (fun s : StitchZ => s.y) =
      q.stitches.map (fun s : StitchQ =>
        jsRound ((s.y - listMin 0 (q.stitches.map (fun u : StitchQ => u.y))) * 10)) := by
  simp [dstNormalize, List.map_map]

lemma dstNormalize_len (q : PatternQ) :
    (dstNormalize q).length = q.stitches.length := by
  simp [dstNormalize]

/-- C1 amended: with the original hypotheses (non-empty stitches, finite
coordinates — here bounded by `10^300` mm, the double range — exactly one
color, at most 999999 stitches) and with width and height each between
0.1 mm and 40 mm (not 400 mm: `convertToFormat` multiplies dimensions by
10 before `DSTWriter.write` re-checks them against 400, so only
dimensions up to 40 mm survive), `convertToFormat(pattern, 'dst')`
completes without error: the per-format limit check passes, the pattern
is converted to machine coordinates, and `DSTWriter.write` accepts the
result and returns a byte buffer. -/
theorem c1_amended (p : PatternQ)
    (hne : p.stitches ≠ [])
    (hcount : p.stitches.length ≤ 999999)
    (hcol : p.colors.length = 1)
    (hfin : ∀ s ∈ p.stitches, |s.x| ≤ 10 ^ 300 ∧ |s.y| ≤ 10 ^ 300)
    (hw1 : 1 / 10 ≤ p.width) (hw2 : p.width ≤ 40)
    (hh1 : 1 / 10 ≤ p.height) (hh2 : p.height ≤ 40) :
    convertDst p = dstWrite (toMachine (withValidatedColors p)) ∧
      ∃ b, convertDst p = .ok b := by
  have hlen0 : p.stitches.length ≠ 0 := by
    intro h; exact hne (List.length_eq_zero.mp h)
  -- FormatConverter.validatePattern passes
  have hfc : fcValidate p = none := by
    unfold fcValidate
    rw [if_neg hlen0, if_neg, if_neg]
    · omega
    · push_neg
      constructor <;> intro h
      · rw [h] at hw1; norm_num at hw1
      · rw [h] at hh1; norm_num at hh1
  -- the per-format limit check passes
  have hlim : dstLimitsCheck (withValidatedColors p) = none := by
    unfold dstLimitsCheck
    rw [if_neg, if_neg, if_neg]
    · rw [not_lt]
      have : (withValidatedColors p).width = p.width := rfl
      have h2 : (withValidatedColors p).height = p.height := rfl
      rw [this, h2]
      rw [max_le_iff]
      constructor <;> linarith
    · rw [not_lt]
      have : (withValidatedColors p).colors.length = p.colors.length := by
        simp [withValidatedColors]
      omega
    · rw [not_lt, wvc_len]
      exact hcount
  -- bounds for the machine pattern dimensions
  have hjw1 : 1 ≤ jsRound (p.width * 10) := by
    refine jsRound_ge _ 1 ?_
    push_cast
    linarith
  have hjw2 : jsRound (p.width * 10) ≤ 400 := by
    refine jsRound_le _ 400 ?_
    push_cast
    linarith
  have hjh1 : 1 ≤ jsRound (p.height * 10) := by
    refine jsRound_ge _ 1 ?_
    push_cast
    linarith
  have hjh2 : jsRound (p.height * 10) ≤ 400 := by
    refine jsRound_le _ 400 ?_
    push_cast
    linarith
  have hMw : (toMachine (withValidatedColors p)).width =
      ((jsRound (p.width * 10) : ℤ) : ℚ) := rfl
  have hMh : (toMachine (withValidatedColors p)).height =
      ((jsRound (p.height * 10) : ℤ) : ℚ) := rfl
  have hMlen : (toMachine (withValidatedColors p)).stitches.length = p.stitches.length := by
    rw [toMachine_len, wvc_len]
  -- machine coordinates are non-negative and bounded
  have hpx : ∀ a ∈ p.stitches.map (fun s : StitchQ => s.x),
      -(10 ^ 300) ≤ a ∧ a ≤ 10 ^ 300 := by
    intro a ha
    obtain ⟨s, hs, rfl⟩ := List.mem_map.mp ha
    have := (hfin s hs).1
    rw [abs_le] at this
    exact this
  have hpy : ∀ a ∈ p.stitches.map (fun s : StitchQ => s.y),
      -(10 ^ 300) ≤ a ∧ a ≤ 10 ^ 300 := by
    intro a ha
    obtain ⟨s, hs, rfl⟩ := List.mem_map.mp ha
    have := (hfin s hs).2
    rw [abs_le] at this
    exact this
  have hpxne : p.stitches.map (fun s : StitchQ => s.x) ≠ [] := by
    intro h; exact hne (List.map_eq_nil.mp h)
  have hpyne : p.stitches.map (fun s : StitchQ => s.y) ≠ [] := by
    intro h; exact hne (List.map_eq_nil.mp h)
  have hminx1 : -(10 ^ 300) ≤ listMin 0 (p.stitches.map (fun s : StitchQ => s.x)) :=
    listMin_ge_of_ne _ _ _ hpxne fun a ha => (hpx a ha).1
  have hminy1 : -(10 ^ 300) ≤ listMin 0 (p.stitches.map (fun s : StitchQ => s.y)) :=
    listMin_ge_of_ne _ _ _ hpyne fun a ha => (hpy a ha).1
  have hMxB : ∀ a ∈ (toMachine (withValidatedColors p)).stitches.map (fun s : StitchQ => s.x),
      0 ≤ a ∧ a ≤ 2 * 10 ^ 301 + 1 := by
    rw [toMachine_map_x]
    intro a ha
    obtain ⟨s, hs, rfl⟩ := List.mem_map.mp ha
    have hs' : s ∈ (withValidatedColors p).stitches := hs
    -- the x coordinates of withValidatedColors are those of p
    have hxmem : s.x ∈ p.stitches.map (fun u : StitchQ => u.x) := by
      rw [← wvc_map_x]
      exact List.mem_map_of_mem _ hs
    have hxB := hpx _ hxmem
    have hminle : listMin 0 ((withValidatedColors p).stitches.map (fun u : StitchQ => u.x)) ≤ s.x :=
      listMin_le _ _ _ (List.mem_map_of_mem _ hs)
    rw [wvc_map_x] at hminle
    rw [wvc_map_x]
    constructor
    · have h0 : (0 : ℤ) ≤ jsRound ((s.x - listMin 0 (p.stitches.map (fun u : StitchQ => u.x))) * 10) := by
        refine jsRound_nonneg _ ?_
        have : 0 ≤ s.x - listMin 0 (p.stitches.map (fun u : StitchQ => u.x)) := by linarith
        linarith
      exact_mod_cast h0
    · have hup : jsRound ((s.x - listMin 0 (p.stitches.map (fun u : StitchQ => u.x))) * 10) ≤
          2 * 10 ^ 301 := by
        refine jsRound_le _ _ ?_
        push_cast
        nlinarith [hxB.2, hminx1]
      have : ((jsRound ((s.x - listMin 0 (p.stitches.map (fun u : StitchQ => u.x))) * 10) : ℤ) : ℚ) ≤
          ((2 * 10 ^ 301 : ℤ) : ℚ) := by exact_mod_cast hup
      push_cast at this
      linarith
  have hMyB : ∀ a ∈ (toMachine (withValidatedColors p)).stitches.map (fun s : StitchQ => s.y),
      0 ≤ a ∧ a ≤ 2 * 10 ^ 301 + 1 := by
    rw [toMachine_map_y]
    intro a ha
    obtain ⟨s, hs, rfl⟩ := List.mem_map.mp ha
    have hymem : s.y ∈ p.stitches.map (fun u : StitchQ => u.y) := by
      rw [← wvc_map_y]
      exact List.mem_map_of_mem _ hs
    have hyB := hpy _ hymem
    have hminle : listMin 0 ((withValidatedColors p).stitches.map (fun u : StitchQ => u.y)) ≤ s.y :=
      listMin_le _ _ _ (List.mem_map_of_mem _ hs)
    rw [wvc_map_y] at hminle
    rw [wvc_map_y]
    constructor
    · have h0 : (0 : ℤ) ≤ jsRound ((s.y - listMin 0 (p.stitches.map (fun u : StitchQ => u.y))) * 10) := by
        refine jsRound_nonneg _ ?_
        have : 0 ≤ s.y - listMin 0 (p.stitches.map (fun u : StitchQ => u.y)) := by linarith
        linarith
      exact_mod_cast h0
    · have hup : jsRound ((s.y - listMin 0 (p.stitches.map (fun u : StitchQ => u.y))) * 10) ≤
          2 * 10 ^ 301 := by
        refine jsRound_le _ _ ?_
        push_cast
        nlinarith [hyB.2, hminy1]
      have : ((jsRound ((s.y - listMin 0 (p.stitches.map (fun u : StitchQ => u.y))) * 10) : ℤ) : ℚ) ≤
          ((2 * 10 ^ 301 : ℤ) : ℚ) := by exact_mod_cast hup
      push_cast at this
      linarith
  -- DSTWriter.validatePattern passes on the machine pattern
  have hdv : dstValidate (toMachine (withValidatedColors p)) = none := by
    unfold dstValidate
    rw [if_neg, if_neg, if_neg, if_neg]
    · rw [not_or, not_lt, not_lt, hMw, hMh]
      constructor
      · exact_mod_cast hjw2
      · exact_mod_cast hjh2
    · rw [not_or, hMw, hMh]
      constructor
      · intro h
        have : (1 : ℚ) ≤ ((jsRound (p.width * 10) : ℤ) : ℚ) := by exact_mod_cast hjw1
        rw [h] at this
        norm_num at this
      · intro h
        have : (1 : ℚ) ≤ ((jsRound (p.height * 10) : ℤ) : ℚ) := by exact_mod_cast hjh1
        rw [h] at this
        norm_num at this
    · rw [not_lt, hMlen]; exact hcount
    · rw [hMlen]; exact hlen0
  -- the normalized integer coordinates are non-negative and bounded
  have hMne : (toMachine (withValidatedColors p)).stitches ≠ [] := by
    intro h
    have h2 : (toMachine (withValidatedColors p)).stitches.length = 0 := by
      rw [h]; rfl
    rw [toMachine_len, wvc_len] at h2
    exact hlen0 h2
  have hMxne : (toMachine (withValidatedColors p)).stitches.map (fun s : StitchQ => s.x) ≠ [] := by
    intro h; exact hMne (List.map_eq_nil.mp h)
  have hMyne : (toMachine (withValidatedColors p)).stitches.map (fun s : StitchQ => s.y) ≠ [] := by
    intro h; exact hMne (List.map_eq_nil.mp h)
  have hm1x : 0 ≤ listMin 0 ((toMachine (withValidatedColors p)).stitches.map (fun s : StitchQ => s.x)) :=
    listMin_ge_of_ne _ _ _ hMxne fun a ha => (hMxB a ha).1
  have hm1y : 0 ≤ listMin 0 ((toMachine (withValidatedColors p)).stitches.map (fun s : StitchQ => s.y)) :=
    listMin_ge_of_ne _ _ _ hMyne fun a ha => (hMyB a ha).1
  have hnsx : ∀ i ∈ (dstNormalize (toMachine (withValidatedColors p))).map (fun s : StitchZ => s.x),
      0 ≤ i ∧ i ≤ 10 ^ 303 := by
    rw [dstNormalize_map_x]
    intro i hi
    obtain ⟨s, hs, rfl⟩ := List.mem_map.mp hi
    have hxB := hMxB _ (List.mem_map_of_mem (fun u : StitchQ => u.x) hs)
    have hminle : listMin 0 ((toMachine (withValidatedColors p)).stitches.map (fun u : StitchQ => u.x)) ≤ s.x :=
      listMin_le _ _ _ (List.mem_map_of_mem _ hs)
    constructor
    · refine jsRound_nonneg _ ?_
      have : 0 ≤ s.x - listMin 0 ((toMachine (withValidatedColors p)).stitches.map (fun u : StitchQ => u.x)) := by
        linarith
      linarith
    · refine jsRound_le _ _ ?_
      push_cast
      nlinarith [hxB.2, hm1x]
  have hnsy : ∀ i ∈ (dstNormalize (toMachine (withValidatedColors p))).map (fun s : StitchZ => s.y),
      0 ≤ i ∧ i ≤ 10 ^ 303 := by
    rw [dstNormalize_map_y]
    intro i hi
    obtain ⟨s, hs, rfl⟩ := List.mem_map.mp hi
    have hyB := hMyB _ (List.mem_map_of_mem (fun u : StitchQ => u.y) hs)
    have hminle : listMin 0 ((toMachine (withValidatedColors p)).stitches.map (fun u : StitchQ => u.y)) ≤ s.y :=
      listMin_le _ _ _ (List.mem_map_of_mem _ hs)
    constructor
    · refine jsRound_nonneg _ ?_
      have : 0 ≤ s.y - listMin 0 ((toMachine (withValidatedColors p)).stitches.map (fun u : StitchQ => u.y)) := by
        linarith
      linarith
    · refine jsRound_le _ _ ?_
      push_cast
      nlinarith [hyB.2, hm1y]
  have hnsne : dstNormalize (toMachine (withValidatedColors p)) ≠ [] := by
    intro h
    have := dstNormalize_len (toMachine (withValidatedColors p))
    rw [h, List.length_nil, hMlen] at this
    exact hlen0 this.symm
  have hnscount : (dstNormalize (toMachine (withValidatedColors p))).length ≤ 999999 := by
    rw [dstNormalize_len, hMlen]; exact hcount
  have hhd : (headerChars (dstNormalize (toMachine (withValidatedColors p)))).length ≤ 512 :=
    headerChars_length_le _ hnsne hnscount hnsx hnsy
  -- DSTWriter.write succeeds
  have hwr : dstWrite (toMachine (withValidatedColors p)) =
      .ok (((headerChars (dstNormalize (toMachine (withValidatedColors p)))).map Char.toNat ++
        List.replicate (512 - (headerChars (dstNormalize (toMachine (withValidatedColors p)))).length) 0) ++
        encodeStitches (dstNormalize (toMachine (withValidatedColors p)))) := by
    unfold dstWrite
    rw [hdv]
    simp only
    rw [if_neg (not_lt.mpr hhd)]
  have hconv : convertDst p = dstWrite (toMachine (withValidatedColors p)) := by
    unfold convertDst
    rw [hfc]
    simp only
    rw [hlim]
  exact ⟨hconv, _, hconv.trans hwr⟩

/-- A pattern within the amended bounds: dimensions 20 × 20 mm. -/
def c1goodpat : PatternQ :=
  { stitches := [{ x := 0, y := 0, type := .normal, color := "#000000" }]
  , colors := ["#000000"], width := 20, height := 20 }

theorem c1_witness :
    (c1goodpat.stitches ≠ [] ∧ c1goodpat.stitches.length ≤ 999999 ∧
      c1goodpat.colors.length = 1 ∧
      (∀ s ∈ c1goodpat.stitches, |s.x| ≤ 10 ^ 300 ∧ |s.y| ≤ 10 ^ 300) ∧
      1 / 10 ≤ c1goodpat.width ∧ c1goodpat.width ≤ 40 ∧
      1 / 10 ≤ c1goodpat.height ∧ c1goodpat.height ≤ 40) ∧
      ∃ b, convertDst c1goodpat = .ok b := by
  have hfin : ∀ s ∈ c1goodpat.stitches, |s.x| ≤ 10 ^ 300 ∧ |s.y| ≤ 10 ^ 300 := by
    intro s hs
    have : s = { x := 0, y := 0, type := .normal, color := "#000000" } := by
      simpa [c1goodpat] using hs
    rw [this]
    norm_num
  have hne : c1goodpat.stitches ≠ [] := by simp [c1goodpat]
  have hw1 : (1 : ℚ) / 10 ≤ c1goodpat.width := by norm_num [c1goodpat]
  have hw2 : c1goodpat.width ≤ 40 := by norm_num [c1goodpat]
  have hh1 : (1 : ℚ) / 10 ≤ c1goodpat.height := by norm_num [c1goodpat]
  have hh2 : c1goodpat.height ≤ 40 := by norm_num [c1goodpat]
  exact ⟨⟨hne, by decide, by decide, hfin, hw1, hw2, hh1, hh2⟩,
    (c1_amended c1goodpat hne (by decide) (by decide) hfin hw1 hw2 hh1 hh2).2⟩

/-- The positive factor in the grayscale specialization of the distance
metric: for pixel luminance `g`, every palette comparison scales
`|g − v|` by this constant. -/
noncomputable def grayK (g : ℚ) : ℝ :=
  Real.sqrt (1 + 2 / (1 + 0.045 * (Real.sqrt 2 * (g : ℝ))) ^ 2)

lemma sqrt_self_add_self (x : ℝ) (hx : 0 ≤ x) :
    Real.sqrt (x * x + x * x) = Real.sqrt 2 * x := by
  rw [show x * x + x * x = 2 * x ^ 2 by ring, Real.sqrt_mul (by norm_num), Real.sqrt_sq hx]

/-- On the grey diagonal the CIE94-flavoured metric collapses: the hue
term vanishes and the distance is `|g − v|` times a factor depending only
on the pixel. -/
lemma grayDist_eq (g v : ℚ) (hg : 0 ≤ g) (hv : 0 ≤ v) :
    calculateColorDistance ⟨g, g, g⟩ ⟨v, v, v⟩ = |(g : ℝ) - (v : ℝ)| * grayK g := by
  unfold calculateColorDistance
  simp only
  have hl1 : (0.2126 * g + 0.7152 * g + 0.0722 * g : ℚ) = g := by ring_nf
  have hl2 : (0.2126 * v + 0.7152 * v + 0.0722 * v : ℚ) = v := by ring_nf
  have hg' : (0 : ℝ) ≤ (g : ℝ) := by exact_mod_cast hg
  have hv' : (0 : ℝ) ≤ (v : ℝ) := by exact_mod_cast hv
  have hc1 : Real.sqrt ((g * g + g * g : ℚ) : ℝ) = Real.sqrt 2 * (g : ℝ) := by
    rw [show ((g * g + g * g : ℚ) : ℝ) = (g : ℝ) * g + (g : ℝ) * g by push_cast; ring]
    exact sqrt_self_add_self _ hg'
  have hc2 : Real.sqrt ((v * v + v * v : ℚ) : ℝ) = Real.sqrt 2 * (v : ℝ) := by
    rw [show ((v * v + v * v : ℚ) : ℝ) = (v : ℝ) * v + (v : ℝ) * v by push_cast; ring]
    exact sqrt_self_add_self _ hv'
  rw [hl1, hl2, hc1, hc2]
  have hs2 : Real.sqrt 2 * Real.sqrt 2 = 2 := Real.mul_self_sqrt (by norm_num)
  have hdh : Real.sqrt (max 0 ((((g - v) * (g - v) + (g - v) * (g - v) : ℚ) : ℝ) -
      (Real.sqrt 2 * (g : ℝ) - Real.sqrt 2 * (v : ℝ)) *
        (Real.sqrt 2 * (g : ℝ) - Real.sqrt 2 * (v : ℝ)))) = 0 := by
    have : (((g - v) * (g - v) + (g - v) * (g - v) : ℚ) : ℝ) -
        (Real.sqrt 2 * (g : ℝ) - Real.sqrt 2 * (v : ℝ)) *
          (Real.sqrt 2 * (g : ℝ) - Real.sqrt 2 * (v : ℝ)) = 0 := by
      push_cast
      nlinarith [hs2]
    rw [this, max_self, Real.sqrt_zero]
  rw [hdh]
  have hexp : (((g - v : ℚ) : ℝ) / 1) ^ 2 +
      ((Real.sqrt 2 * (g : ℝ) - Real.sqrt 2 * (v : ℝ)) /
        (1 + 0.045 * (Real.sqrt 2 * (g : ℝ)))) ^ 2 +
      ((0 : ℝ) / (1 + 0.015 * (Real.sqrt 2 * (g : ℝ)))) ^ 2 =
      ((g : ℝ) - (v : ℝ)) ^ 2 * (1 + 2 / (1 + 0.045 * (Real.sqrt 2 * (g : ℝ))) ^ 2) := by
    have hsc : (1 : ℝ) ≤ 1 + 0.045 * (Real.sqrt 2 * (g : ℝ)) := by
      nlinarith [Real.sqrt_nonneg 2]
    have hscne : (1 + 0.045 * (Real.sqrt 2 * (g : ℝ))) ≠ 0 := by linarith
    field_simp
    push_cast
    nlinarith [hs2]
  rw [hexp, grayK, Real.sqrt_mul (sq_nonneg _), Real.sqrt_sq_eq_abs]

lemma grayK_pos (g : ℚ) (hg : 0 ≤ g) : 0 < grayK g := by
  unfold grayK
  have hg' : (0 : ℝ) ≤ (g : ℝ) := by exact_mod_cast hg
  have hsc : (1 : ℝ) ≤ 1 + 0.045 * (Real.sqrt 2 * (g : ℝ)) := by
    nlinarith [Real.sqrt_nonneg 2]
  have h2 : (0 : ℝ) < 2 / (1 + 0.045 * (Real.sqrt 2 * (g : ℝ))) ^ 2 := by positivity
  refine Real.sqrt_pos.mpr ?_
  linarith

/-- Comparing grayscale palette distances is comparing `|g − v|`. -/
lemma grayDist_lt_iff (g v w : ℚ) (hg : 0 ≤ g) (hv : 0 ≤ v) (hw : 0 ≤ w) :
    (calculateColorDistance ⟨g, g, g⟩ ⟨v, v, v⟩ <
      calculateColorDistance ⟨g, g, g⟩ ⟨w, w, w⟩) ↔ |g - v| < |g - w| := by
  rw [grayDist_eq g v hg hv, grayDist_eq g w hg hw]
  rw [mul_lt_mul_right (grayK_pos g hg)]
  rw [show |(g : ℝ) - (v : ℝ)| = ((|g - v| : ℚ) : ℝ) by push_cast; rfl]
  rw [show |(g : ℝ) - (w : ℝ)| = ((|g - w| : ℚ) : ℝ) by push_cast; rfl]
  exact_mod_cast Iff.rfl

/-- Default entry for total list indexing in the statements below (never
selected: indices stay in range). -/
def fccDefault : ThreadColor := ⟨"Black", "#000000", 0, 0, 0⟩

lemma fccGo_cons (c : RGBq) (best q : ThreadColor) (rest : List ThreadColor) :
    fccGo c best (q :: rest) =
      if calculateColorDistance c (tcRGB q) < calculateColorDistance c (tcRGB best) then
        fccGo c q rest
      else
        fccGo c best rest := rfl

/-- The scan of `findClosestColor` returns the leftmost distance
minimizer of `best :: l`: its distance is minimal, and every entry
strictly before it has strictly larger distance (so ties are broken by the
lowest palette index). -/
lemma fccGo_leftmost (c : RGBq) :
    ∀ (l : List ThreadColor) (best : ThreadColor),
      ∃ k, k < (best :: l).length ∧ (best :: l).getD k fccDefault = fccGo c best l ∧
        (∀ j, j < (best :: l).length →
          calculateColorDistance c (tcRGB (fccGo c best l)) ≤
            calculateColorDistance c (tcRGB ((best :: l).getD j fccDefault))) ∧
        (∀ j, j < k →
          calculateColorDistance c (tcRGB (fccGo c best l)) <
            calculateColorDistance c (tcRGB ((best :: l).getD j fccDefault))) := by
  intro l
  induction l with
  | nil =>
    intro best
    refine ⟨0, by simp, rfl, ?_, by omega⟩
    intro j hj
    simp only [List.length_cons, List.length_nil] at hj
    have hj0 : j = 0 := by omega
    subst hj0
    exact le_refl _
  | cons q rest ih =>
    intro best
    by_cases h : calculateColorDistance c (tcRGB q) < calculateColorDistance c (tcRGB best)
    · obtain ⟨k, hk, hget, hmin, hstrict⟩ := ih q
      rw [fccGo_cons, if_pos h]
      refine ⟨k + 1, by simpa using hk, hget, ?_, ?_⟩
      · intro j hj
        cases j with
        | zero =>
          have h0 := hmin 0 (by simp)
          simp only [List.getD_cons_zero] at h0 ⊢
          exact le_trans h0 (le_of_lt h)
        | succ m =>
          have := hmin m (by simpa using hj)
          simpa using this
      · intro j hj
        cases j with
        | zero =>
          have h0 := hmin 0 (by simp)
          simp only [List.getD_cons_zero] at h0 ⊢
          exact lt_of_le_of_lt h0 h
        | succ m =>
          have := hstrict m (by omega)
          simpa using this
    · obtain ⟨k, hk, hget, hmin, hstrict⟩ := ih best
      rw [fccGo_cons, if_neg h]
      have hbq : calculateColorDistance c (tcRGB best) ≤ calculateColorDistance c (tcRGB q) :=
        not_lt.mp h
      cases k with
      | zero =>
        simp only [List.getD_cons_zero] at hget
        refine ⟨0, by simp, by simpa using hget, ?_, by omega⟩
        intro j hj
        cases j with
        | zero =>
          have h0 := hmin 0 (by simp)
          simpa using h0
        | succ m =>
          cases m with
          | zero =>
            have h0 := hmin 0 (by simp)
            simp only [List.getD_cons_zero] at h0
            simp only [List.getD_cons_succ, List.getD_cons_zero]
            exact le_trans h0 hbq
          | succ n =>
            have := hmin (n + 1) (by simpa using hj)
            simpa using this
      | succ m =>
        refine ⟨m + 2, by simpa using hk, by simpa using hget, ?_, ?_⟩
        · intro j hj
          cases j with
          | zero =>
            have h0 := hmin 0 (by simp)
            simpa using h0
          | succ i =>
            cases i with
            | zero =>
              have h0 := hmin 0 (by simp)
              simp only [List.getD_cons_zero] at h0
              simp only [List.getD_cons_succ, List.getD_cons_zero]
              exact le_trans h0 hbq
            | succ n =>
              have := hmin (n + 1) (by simpa using hj)
              simpa using this
        · intro j hj
          cases j with
          | zero =>
            have h0 := hstrict 0 (by omega)
            simpa using h0
          | succ i =>
            cases i with
            | zero =>
              have h0 := hstrict 0 (by omega)
              simp only [List.getD_cons_zero] at h0
              simp only [List.getD_cons_succ, List.getD_cons_zero]
              exact lt_of_lt_of_le h0 hbq
            | succ n =>
              have := hstrict (n + 1) (by omega)
              simpa using this

lemma grayscale_colors_eq :
    GRAYSCALE_COLORS =
      [ ⟨"Black", "#000000", 0, 0, 0⟩
      , ⟨"Dark Gray", "#404040", 64, 64, 64⟩
      , ⟨"Medium Gray", "#808080", 128, 128, 128⟩
      , ⟨"Light Gray", "#C0C0C0", 192, 192, 192⟩
      , ⟨"White", "#FFFFFF", 255, 255, 255⟩ ] := rfl

lemma grayDist_tc_lt_iff (g v w : ℚ) (tv tw : ThreadColor)
    (hg : 0 ≤ g) (hv : 0 ≤ v) (hw : 0 ≤ w)
    (htv : tcRGB tv = ⟨v, v, v⟩) (htw : tcRGB tw = ⟨w, w, w⟩) :
    (calculateColorDistance ⟨g, g, g⟩ (tcRGB tv) <
      calculateColorDistance ⟨g, g, g⟩ (tcRGB tw)) ↔ |g - v| < |g - w| := by
  rw [htv, htw]
  exact grayDist_lt_iff g v w hg hv hw

lemma grayLum_uniform (n a : ℕ) : grayLum ⟨n, n, n, a⟩ = (n : ℤ) := by
  show ⌊(0.299 * (n : ℚ) + 0.587 * (n : ℚ) + 0.114 * (n : ℚ)) + 1 / 2⌋ = (n : ℤ)
  rw [show (0.299 * (n : ℚ) + 0.587 * (n : ℚ) + 0.114 * (n : ℚ)) + 1 / 2 =
    (n : ℚ) + 1 / 2 by ring]
  rw [Int.floor_eq_iff]
  constructor
  · push_cast; linarith
  · push_cast; linarith

lemma abs_sub_eval (a b c : ℚ) (h : a - b = c ∨ a - b = -c) (hc : 0 ≤ c) :
    |a - b| = c := by
  rcases h with h | h
  · rw [h, abs_of_nonneg hc]
  · rw [h, abs_neg, abs_of_nonneg hc]

lemma pickColor_gray_10 :
    pickColor .grayscale ⟨10, 10, 10, 255⟩ = ⟨"Black", "#000000", 0, 0, 0⟩ := by
  have hgt : grayTriple ⟨10, 10, 10, 255⟩ = ⟨10, 10, 10⟩ := by
    unfold grayTriple
    rw [grayLum_uniform 10 255]
    norm_num
  show findClosestColor (grayTriple ⟨10, 10, 10, 255⟩) GRAYSCALE_COLORS = _
  rw [hgt, grayscale_colors_eq]
  show fccGo ⟨10, 10, 10⟩ ⟨"Black", "#000000", 0, 0, 0⟩
    [ ⟨"Dark Gray", "#404040", 64, 64, 64⟩
    , ⟨"Medium Gray", "#808080", 128, 128, 128⟩
    , ⟨"Light Gray", "#C0C0C0", 192, 192, 192⟩
    , ⟨"White", "#FFFFFF", 255, 255, 255⟩ ] = ⟨"Black", "#000000", 0, 0, 0⟩
  have h1 : ¬ (calculateColorDistance ⟨10, 10, 10⟩ (tcRGB ⟨"Dark Gray", "#404040", 64, 64, 64⟩) <
      calculateColorDistance ⟨10, 10, 10⟩ (tcRGB ⟨"Black", "#000000", 0, 0, 0⟩)) := by
    rw [grayDist_tc_lt_iff 10 64 0 _ _ (by norm_num) (by norm_num) (by norm_num)
      (by norm_num [tcRGB]) (by norm_num [tcRGB])]
    rw [abs_sub_eval 10 64 54 (by norm_num) (by norm_num),
      abs_sub_eval 10 0 10 (by norm_num) (by norm_num)]
    norm_num
  have h2 : ¬ (calculateColorDistance ⟨10, 10, 10⟩ (tcRGB ⟨"Medium Gray", "#808080", 128, 128, 128⟩) <
      calculateColorDistance ⟨10, 10, 10⟩ (tcRGB ⟨"Black", "#000000", 0, 0, 0⟩)) := by
    rw [grayDist_tc_lt_iff 10 128 0 _ _ (by norm_num) (by norm_num) (by norm_num)
      (by norm_num [tcRGB]) (by norm_num [tcRGB])]
    rw [abs_sub_eval 10 128 118 (by norm_num) (by norm_num),
      abs_sub_eval 10 0 10 (by norm_num) (by norm_num)]
    norm_num
  have h3 : ¬ (calculateColorDistance ⟨10, 10, 10⟩ (tcRGB ⟨"Light Gray", "#C0C0C0", 192, 192, 192⟩) <
      calculateColorDistance ⟨10, 10, 10⟩ (tcRGB ⟨"Black", "#000000", 0, 0, 0⟩)) := by
    rw [grayDist_tc_lt_iff 10 192 0 _ _ (by norm_num) (by norm_num) (by norm_num)
      (by norm_num [tcRGB]) (by norm_num [tcRGB])]
    rw [abs_sub_eval 10 192 182 (by norm_num) (by norm_num),
      abs_sub_eval 10 0 10 (by norm_num) (by norm_num)]
    norm_num
  have h4 : ¬ (calculateColorDistance ⟨10, 10, 10⟩ (tcRGB ⟨"White", "#FFFFFF", 255, 255, 255⟩) <
      calculateColorDistance ⟨10, 10, 10⟩ (tcRGB ⟨"Black", "#000000", 0, 0, 0⟩)) := by
    rw [grayDist_tc_lt_iff 10 255 0 _ _ (by norm_num) (by norm_num) (by norm_num)
      (by norm_num [tcRGB]) (by norm_num [tcRGB])]
    rw [abs_sub_eval 10 255 245 (by norm_num) (by norm_num),
      abs_sub_eval 10 0 10 (by norm_num) (by norm_num)]
    norm_num
  rw [fccGo_cons, if_neg h1, fccGo_cons, if_neg h2, fccGo_cons, if_neg h3,
    fccGo_cons, if_neg h4]
  rfl

lemma pickColor_gray_250 :
    pickColor .grayscale ⟨250, 250, 250, 255⟩ = ⟨"White", "#FFFFFF", 255, 255, 255⟩ := by
  have hgt : grayTriple ⟨250, 250, 250, 255⟩ = ⟨250, 250, 250⟩ := by
    unfold grayTriple
    rw [grayLum_uniform 250 255]
    norm_num
  show findClosestColor (grayTriple ⟨250, 250, 250, 255⟩) GRAYSCALE_COLORS = _
  rw [hgt, grayscale_colors_eq]
  show fccGo ⟨250, 250, 250⟩ ⟨"Black", "#000000", 0, 0, 0⟩
    [ ⟨"Dark Gray", "#404040", 64, 64, 64⟩
    , ⟨"Medium Gray", "#808080", 128, 128, 128⟩
    , ⟨"Light Gray", "#C0C0C0", 192, 192, 192⟩
    , ⟨"White", "#FFFFFF", 255, 255, 255⟩ ] = ⟨"White", "#FFFFFF", 255, 255, 255⟩
  have h1 : calculateColorDistance ⟨250, 250, 250⟩ (tcRGB ⟨"Dark Gray", "#404040", 64, 64, 64⟩) <
      calculateColorDistance ⟨250, 250, 250⟩ (tcRGB ⟨"Black", "#000000", 0, 0, 0⟩) := by
    rw [grayDist_tc_lt_iff 250 64 0 _ _ (by norm_num) (by norm_num) (by norm_num)
      (by norm_num [tcRGB]) (by norm_num [tcRGB])]
    rw [abs_sub_eval 250 64 186 (by norm_num) (by norm_num),
      abs_sub_eval 250 0 250 (by norm_num) (by norm_num)]
    norm_num
  have h2 : calculateColorDistance ⟨250, 250, 250⟩ (tcRGB ⟨"Medium Gray", "#808080", 128, 128, 128⟩) <
      calculateColorDistance ⟨250, 250, 250⟩ (tcRGB ⟨"Dark Gray", "#404040", 64, 64, 64⟩) := by
    rw [grayDist_tc_lt_iff 250 128 64 _ _ (by norm_num) (by norm_num) (by norm_num)
      (by norm_num [tcRGB]) (by norm_num [tcRGB])]
    rw [abs_sub_eval 250 128 122 (by norm_num) (by norm_num),
      abs_sub_eval 250 64 186 (by norm_num) (by norm_num)]
    norm_num
  have h3 : calculateColorDistance ⟨250, 250, 250⟩ (tcRGB ⟨"Light Gray", "#C0C0C0", 192, 192, 192⟩) <
      calculateColorDistance ⟨250, 250, 250⟩ (tcRGB ⟨"Medium Gray", "#808080", 128, 128, 128⟩) := by
    rw [grayDist_tc_lt_iff 250 192 128 _ _ (by norm_num) (by norm_num) (by norm_num)
      (by norm_num [tcRGB]) (by norm_num [tcRGB])]
    rw [abs_sub_eval 250 192 58 (by norm_num) (by norm_num),
      abs_sub_eval 250 128 122 (by norm_num) (by norm_num)]
    norm_num
  have h4 : calculateColorDistance ⟨250, 250, 250⟩ (tcRGB ⟨"White", "#FFFFFF", 255, 255, 255⟩) <
      calculateColorDistance ⟨250, 250, 250⟩ (tcRGB ⟨"Light Gray", "#C0C0C0", 192, 192, 192⟩) := by
    rw [grayDist_tc_lt_iff 250 255 192 _ _ (by norm_num) (by norm_num) (by norm_num)
      (by norm_num [tcRGB]) (by norm_num [tcRGB])]
    rw [abs_sub_eval 250 255 5 (by norm_num) (by norm_num),
      abs_sub_eval 250 192 58 (by norm_num) (by norm_num)]
    norm_num
  rw [fccGo_cons, if_pos h1, fccGo_cons, if_pos h2, fccGo_cons, if_pos h3,
    fccGo_cons, if_pos h4]
  rfl

/-- C8: in Grayscale mode `processImage` maps each pixel to the palette
entry minimizing the CIE94-flavoured distance from `(Y, Y, Y)` over the
first 5 palette entries, with ties broken by the lowest palette index
(the chosen entry is the leftmost minimizer); in particular RGB
`(10, 10, 10)` maps to Black `#000000` and `(250, 250, 250)` maps to
White `#FFFFFF`. -/
theorem c8_grayscale_quantization :
    (∀ img : Image, (processImage img .grayscale).1.pixels =
        img.pixels.map fun px => applyTC px (pickColor .grayscale px)) ∧
      (∀ px : Pixel, ∃ k, k < GRAYSCALE_COLORS.length ∧
        GRAYSCALE_COLORS.getD k fccDefault = pickColor .grayscale px ∧
        (∀ j, j < GRAYSCALE_COLORS.length →
          calculateColorDistance (grayTriple px) (tcRGB (pickColor .grayscale px)) ≤
            calculateColorDistance (grayTriple px) (tcRGB (GRAYSCALE_COLORS.getD j fccDefault))) ∧
        (∀ j, j < k →
          calculateColorDistance (grayTriple px) (tcRGB (pickColor .grayscale px)) <
            calculateColorDistance (grayTriple px) (tcRGB (GRAYSCALE_COLORS.getD j fccDefault)))) ∧
      pickColor .grayscale ⟨10, 10, 10, 255⟩ = ⟨"Black", "#000000", 0, 0, 0⟩ ∧
      pickColor .grayscale ⟨250, 250, 250, 255⟩ = ⟨"White", "#FFFFFF", 255, 255, 255⟩ := by
  refine ⟨fun img => rfl, ?_, pickColor_gray_10, pickColor_gray_250⟩
  intro px
  have hpick : pickColor .grayscale px =
      fccGo (grayTriple px) ⟨"Black", "#000000", 0, 0, 0⟩
        [ ⟨"Dark Gray", "#404040", 64, 64, 64⟩
        , ⟨"Medium Gray", "#808080", 128, 128, 128⟩
        , ⟨"Light Gray", "#C0C0C0", 192, 192, 192⟩
        , ⟨"White", "#FFFFFF", 255, 255, 255⟩ ] := rfl
  rw [grayscale_colors_eq, hpick]
  exact fccGo_leftmost (grayTriple px) _ _

theorem c8_witness :
    pickColor .grayscale ⟨10, 10, 10, 255⟩ = ⟨"Black", "#000000", 0, 0, 0⟩ ∧
      4 < GRAYSCALE_COLORS.length ∧
      calculateColorDistance (grayTriple ⟨10, 10, 10, 255⟩)
          (tcRGB (pickColor .grayscale ⟨10, 10, 10, 255⟩)) ≤
        calculateColorDistance (grayTriple ⟨10, 10, 10, 255⟩)
          (tcRGB (GRAYSCALE_COLORS.getD 4 fccDefault)) := by
  refine ⟨c8_grayscale_quantization.2.2.1, by decide, ?_⟩
  obtain ⟨k, hk, hget, hmin, hstrict⟩ := c8_grayscale_quantization.2.1 ⟨10, 10, 10, 255⟩
  exact hmin 4 (by decide)

/-- The palette used for a given color mode. -/
def paletteFor : ColorMode → List ThreadColor
  | .grayscale => GRAYSCALE_COLORS
  | .color => THREAD_COLORS

lemma fccGo_mem (c : RGBq) :
    ∀ (l : List ThreadColor) (best : ThreadColor), fccGo c best l ∈ best :: l := by
  intro l
  induction l with
  | nil => intro best; exact List.mem_cons_self _ _
  | cons q rest ih =>
    intro best
    rw [fccGo_cons]
    by_cases h : calculateColorDistance c (tcRGB q) < calculateColorDistance c (tcRGB best)
    · rw [if_pos h]
      have := ih q
      rcases List.mem_cons.mp this with h2 | h2
      · rw [h2]; exact List.mem_cons_of_mem _ (List.mem_cons_self _ _)
      · exact List.mem_cons_of_mem _ (List.mem_cons_of_mem _ h2)
    · rw [if_neg h]
      have := ih best
      rcases List.mem_cons.mp this with h2 | h2
      · rw [h2]; exact List.mem_cons_self _ _
      · exact List.mem_cons_of_mem _ (List.mem_cons_of_mem _ h2)

lemma pickColor_mem (mode : ColorMode) (px : Pixel) :
    pickColor mode px ∈ paletteFor mode := by
  cases mode with
  | grayscale =>
    show findClosestColor (grayTriple px) GRAYSCALE_COLORS ∈ GRAYSCALE_COLORS
    rw [grayscale_colors_eq]
    exact fccGo_mem _ _ _
  | color =>
    show findClosestColor ⟨px.r, px.g, px.b⟩ THREAD_COLORS ∈ THREAD_COLORS
    show fccGo _ _ _ ∈ THREAD_COLORS
    exact fccGo_mem _ _ _

lemma paletteFor_sub (mode : ColorMode) :
    ∀ t ∈ paletteFor mode, t ∈ THREAD_COLORS := by
  cases mode with
  | grayscale =>
    intro t ht
    exact List.mem_of_mem_take ht
  | color => intro t ht; exact ht

lemma addUnique_nodup (l : List String) (x : String) (h : l.Nodup) :
    (addUnique l x).Nodup := by
  unfold addUnique
  by_cases hx : x ∈ l
  · rw [if_pos hx]; exact h
  · rw [if_neg hx]
    rw [List.nodup_append]
    refine ⟨h, List.nodup_singleton x, ?_⟩
    intro a ha hax
    rw [List.mem_singleton] at hax
    exact hx (hax ▸ ha)

lemma addUnique_mem (l : List String) (x c : String) (h : c ∈ addUnique l x) :
    c ∈ l ∨ c = x := by
  unfold addUnique at h
  by_cases hx : x ∈ l
  · rw [if_pos hx] at h; exact Or.inl h
  · rw [if_neg hx] at h
    rcases List.mem_append.mp h with h2 | h2
    · exact Or.inl h2
    · exact Or.inr (List.mem_singleton.mp h2)

lemma foldl_addUnique_nodup (f : Pixel → String) (l : List Pixel) :
    ∀ acc : List String, acc.Nodup →
      (l.foldl (fun a px => addUnique a (f px)) acc).Nodup := by
  induction l with
  | nil => intro acc h; exact h
  | cons px rest ih =>
    intro acc h
    exact ih _ (addUnique_nodup _ _ h)

lemma foldl_addUnique_mem (f : Pixel → String) (l : List Pixel) :
    ∀ (acc : List String) (c : String),
      c ∈ l.foldl (fun a px => addUnique a (f px)) acc →
      c ∈ acc ∨ ∃ px ∈ l, c = f px := by
  induction l with
  | nil => intro acc c h; exact Or.inl h
  | cons px rest ih =>
    intro acc c h
    rcases ih _ c h with h2 | h2
    · rcases addUnique_mem _ _ _ h2 with h3 | h3
      · exact Or.inl h3
      · exact Or.inr ⟨px, List.mem_cons_self _ _, h3⟩
    · obtain ⟨q, hq, hc⟩ := h2
      exact Or.inr ⟨q, List.mem_cons_of_mem _ hq, hc⟩

/-- C10: for every image and mode, `processImage` preserves width, height
and pixel count; every output pixel's RGB triple is that of a palette
entry (one of the first 5 in Grayscale mode); and the returned colors are
hex codes of palette entries without duplicates. -/
theorem c10_processImage_palette (img : Image) (mode : ColorMode) :
    (processImage img mode).1.width = img.width ∧
      (processImage img mode).1.height = img.height ∧
      (processImage img mode).1.pixels.length = img.pixels.length ∧
      (∀ px ∈ (processImage img mode).1.pixels,
        ∃ t ∈ paletteFor mode, px.r = t.r ∧ px.g = t.g ∧ px.b = t.b) ∧
      (∀ c ∈ (processImage img mode).2, ∃ t ∈ THREAD_COLORS, c = t.hex) ∧
      (processImage img mode).2.Nodup := by
  refine ⟨rfl, rfl, by simp [processImage], ?_, ?_, ?_⟩
  · intro px hpx
    have : px ∈ img.pixels.map fun q => applyTC q (pickColor mode q) := hpx
    obtain ⟨q, hq, rfl⟩ := List.mem_map.mp this
    exact ⟨pickColor mode q, pickColor_mem mode q, rfl, rfl, rfl⟩
  · intro c hc
    have : c ∈ img.pixels.foldl (fun a px => addUnique a (pickColor mode px).hex) [] := hc
    rcases foldl_addUnique_mem _ _ _ _ this with h2 | h2
    · exact absurd h2 (List.not_mem_nil c)
    · obtain ⟨q, hq, rfl⟩ := h2
      exact ⟨pickColor mode q, paletteFor_sub mode _ (pickColor_mem mode q), rfl⟩
  · exact foldl_addUnique_nodup _ _ [] List.nodup_nil

/-- One-pixel grayscale test image for the C10 witness. -/
def c10img : Image := ⟨1, 1, [⟨10, 10, 10, 255⟩]⟩

lemma c10img_pixels :
    (processImage c10img .grayscale).1.pixels = [⟨0, 0, 0, 255⟩] := by
  show [applyTC ⟨10, 10, 10, 255⟩ (pickColor .grayscale ⟨10, 10, 10, 255⟩)] = _
  rw [pickColor_gray_10]
  rfl

lemma c10img_colors :
    (processImage c10img .grayscale).2 = ["#000000"] := by
  show addUnique [] (pickColor .grayscale ⟨10, 10, 10, 255⟩).hex = _
  rw [pickColor_gray_10]
  rfl

theorem c10_witness :
    ((⟨0, 0, 0, 255⟩ : Pixel) ∈ (processImage c10img .grayscale).1.pixels ∧
      "#000000" ∈ (processImage c10img .grayscale).2) ∧
      (∃ t ∈ paletteFor .grayscale, (⟨0, 0, 0, 255⟩ : Pixel).r = t.r ∧
        (⟨0, 0, 0, 255⟩ : Pixel).g = t.g ∧ (⟨0, 0, 0, 255⟩ : Pixel).b = t.b) ∧
      (∃ t ∈ THREAD_COLORS, "#000000" = t.hex) ∧
      (processImage c10img .grayscale).2.Nodup := by
  have hm1 : (⟨0, 0, 0, 255⟩ : Pixel) ∈ (processImage c10img .grayscale).1.pixels := by
    rw [c10img_pixels]
    exact List.mem_singleton.mpr rfl
  have hm2 : "#000000" ∈ (processImage c10img .grayscale).2 := by
    rw [c10img_colors]
    exact List.mem_singleton.mpr rfl
  obtain ⟨_, _, _, h4, h5, h6⟩ := c10_processImage_palette c10img .grayscale
  exact ⟨⟨hm1, hm2⟩, h4 _ hm1, h5 _ hm2, h6⟩

/-- The settings record consumed by `ConversionManager.sanitizeSettings`
(numeric fields as rationals, `underlay` a boolean, `color` a string). -/
structure JsSettings : Type where
  width : ℚ
  height : ℚ
  density : ℚ
  angle : ℚ
  underlay : Bool
  pullCompensation : ℚ
  color : String
  edgeThreshold : ℚ
  deriving DecidableEq

/-- The regex test `/^#[0-9A-Fa-f]{6}$/`. -/
def isHexColor (s : String) : Bool :=
  match s.toList with
  | '#' :: rest =>
    rest.length = 6 && rest.all fun c =>
      ('0' ≤ c && c ≤ '9') || ('a' ≤ c && c ≤ 'f') || ('A' ≤ c && c ≤ 'F')
  | _ => false

/-- `ConversionManager.sanitizeSettings`: clamp the numeric ranges,
normalize the angle with `((angle % 360) + 360) % 360`, keep the color
only when it matches the hex regex, and default a falsy (`0`)
`edgeThreshold` to 128 before clamping (`Boolean(b)` on a boolean is the
identity). -/
def sanitizeSettings (s : JsSettings) : JsSettings :=
  { width := max 10 (min 1000 s.width)
    height := max 10 (min 1000 s.height)
    density := max 1 (min 5 s.density)
    angle := jsRem (jsRem s.angle 360 + 360) 360
    underlay := s.underlay
    pullCompensation := max 0 (min 100 s.pullCompensation)
    color := if isHexColor s.color then s.color else "#000000"
    edgeThreshold := max 64 (min 192 (if s.edgeThreshold = 0 then 128 else s.edgeThreshold)) }

lemma clamp_idem (lo hi x : ℚ) (h : lo ≤ hi) :
    max lo (min hi (max lo (min hi x))) = max lo (min hi x) := by
  have h1 : max lo (min hi x) ≤ hi := max_le h (min_le_left _ _)
  rw [min_eq_right h1, max_eq_right (le_max_left _ _)]

lemma jsRem_nonneg_bounds (q : ℚ) (h : 0 ≤ q) :
    0 ≤ jsRem q 360 ∧ jsRem q 360 < 360 := by
  unfold jsRem jsTrunc
  rw [if_pos (div_nonneg h (by norm_num))]
  have h1 : ((⌊q / 360⌋ : ℤ) : ℚ) ≤ q / 360 := Int.floor_le _
  have h2 : q / 360 < (⌊q / 360⌋ : ℚ) + 1 := Int.lt_floor_add_one _
  have h3 : q / 360 * 360 = q := div_mul_cancel₀ q (by norm_num)
  constructor <;> nlinarith [h1, h2, h3]

lemma jsRem_any_bounds (a : ℚ) : -360 < jsRem a 360 ∧ jsRem a 360 < 360 := by
  by_cases h : 0 ≤ a
  · have := jsRem_nonneg_bounds a h
    constructor <;> linarith [this.1, this.2]
  · push_neg at h
    unfold jsRem jsTrunc
    rw [if_neg (not_le.mpr (div_neg_of_neg_of_pos h (by norm_num)))]
    have h1 : ((⌊-(a / 360)⌋ : ℤ) : ℚ) ≤ -(a / 360) := Int.floor_le _
    have h2 : -(a / 360) < (⌊-(a / 360)⌋ : ℚ) + 1 := Int.lt_floor_add_one _
    have h3 : a / 360 * 360 = a := div_mul_cancel₀ a (by norm_num)
    push_cast
    constructor <;> nlinarith [h1, h2, h3]

lemma jsRem_of_range (x : ℚ) (h0 : 0 ≤ x) (h1 : x < 360) : jsRem x 360 = x := by
  unfold jsRem jsTrunc
  rw [if_pos (div_nonneg h0 (by norm_num))]
  have : ⌊x / 360⌋ = 0 := by
    rw [Int.floor_eq_zero_iff]
    constructor
    · exact div_nonneg h0 (by norm_num)
    · show x / 360 < 1
      rw [div_lt_one (by norm_num)]
      linarith
  rw [this]
  push_cast
  ring

lemma jsRem_add360 (x : ℚ) (h0 : 0 ≤ x) (h1 : x < 360) : jsRem (x + 360) 360 = x := by
  unfold jsRem jsTrunc
  rw [if_pos (div_nonneg (by linarith) (by norm_num))]
  have hfl : ⌊(x + 360) / 360⌋ = 1 := by
    rw [Int.floor_eq_iff]
    constructor
    · push_cast
      rw [le_div_iff (by norm_num : (0 : ℚ) < 360)]
      linarith
    · push_cast
      rw [div_lt_iff (by norm_num : (0 : ℚ) < 360)]
      linarith
  rw [hfl]
  push_cast
  ring

lemma normAngle_bounds (a : ℚ) :
    0 ≤ jsRem (jsRem a 360 + 360) 360 ∧ jsRem (jsRem a 360 + 360) 360 < 360 := by
  have hb := jsRem_any_bounds a
  exact jsRem_nonneg_bounds (jsRem a 360 + 360) (by linarith [hb.1])

lemma normAngle_idem (a : ℚ) :
    jsRem (jsRem (jsRem (jsRem a 360 + 360) 360) 360 + 360) 360 =
      jsRem (jsRem a 360 + 360) 360 := by
  have hb := normAngle_bounds a
  rw [jsRem_of_range _ hb.1 hb.2]
  exact jsRem_add360 _ hb.1 hb.2

lemma isHexColor_default : isHexColor "#000000" = true := by decide

/-- C9: `sanitizeSettings` is idempotent — clamping width, height,
density, pullCompensation and edgeThreshold, normalizing the angle into
`[0, 360)` and replacing a non-matching hex color with `#000000` are all
fixed on already-sanitized values. -/
theorem c9_sanitize_idempotent (s : JsSettings) :
    sanitizeSettings (sanitizeSettings s) = sanitizeSettings s := by
  unfold sanitizeSettings
  simp only
  rw [JsSettings.mk.injEq]
  refine ⟨clamp_idem _ _ _ (by norm_num), clamp_idem _ _ _ (by norm_num),
    clamp_idem _ _ _ (by norm_num), normAngle_idem _, rfl,
    clamp_idem _ _ _ (by norm_num), ?_, ?_⟩
  · by_cases h : isHexColor s.color = true
    · rw [if_pos h, if_pos h]
    · rw [if_neg h, if_pos isHexColor_default]
  · have h192 : min 192 (if s.edgeThreshold = 0 then 128 else s.edgeThreshold) ≤ 192 :=
      min_le_left _ _
    have hge : (64 : ℚ) ≤ max 64 (min 192 (if s.edgeThreshold = 0 then 128 else s.edgeThreshold)) :=
      le_max_left _ _
    have hne : ¬ (max 64 (min 192 (if s.edgeThreshold = 0 then 128 else s.edgeThreshold)) = 0) := by
      intro h
      rw [h] at hge
      norm_num at hge
    rw [if_neg hne]
    have hle : max 64 (min 192 (if s.edgeThreshold = 0 then 128 else s.edgeThreshold)) ≤ 192 :=
      max_le (by norm_num) h192
    rw [min_eq_right hle, max_eq_right hge]

/-- A JavaScript number extended with its non-finite values, used for the
claims that are specifically about NaN / Infinity behaviour of
`DSTWriter`.  Finite values are exact rationals. -/
inductive ENum : Type
  | num (q : ℚ)
  | nan
  | inf
  | ninf
  deriving DecidableEq, Repr

/-- JavaScript `isNaN`. -/
def ENum.isNaN : ENum → Bool
  | .nan => true
  | _ => false

/-- JavaScript subtraction on extended numbers (`∞ − ∞ = NaN`). -/
def ENum.sub : ENum → ENum → ENum
  | .nan, _ => .nan
  | _, .nan => .nan
  | .inf, .inf => .nan
  | .inf, _ => .inf
  | .ninf, .ninf => .nan
  | .ninf, _ => .ninf
  | .num _, .inf => .ninf
  | .num _, .ninf => .inf
  | .num a, .num b => .num (a - b)

/-- Multiplication by the positive constant `PPMM = 10`. -/
def ENum.mul10 : ENum → ENum
  | .num q => .num (q * 10)
  | e => e

/-- `Math.round` on extended numbers (`NaN` and infinities are fixed). -/
def ENum.round : ENum → ENum
  | .num q => .num ((jsRound q : ℤ) : ℚ)
  | e => e

/-- `Math.abs` (`-x` for negative `x`, the argument otherwise). -/
def ENum.abs : ENum → ENum
  | .num q => .num (if q < 0 then -q else q)
  | .nan => .nan
  | _ => .inf

/-- The JavaScript `<` comparison: false whenever `NaN` is involved. -/
def ENum.lt : ENum → ENum → Bool
  | .nan, _ => false
  | _, .nan => false
  | .inf, _ => false
  | .num _, .inf => true
  | .ninf, .inf => true
  | .ninf, .ninf => false
  | .ninf, .num _ => true
  | .num _, .ninf => false
  | .num a, .num b => decide (a < b)

/-- `Math.min` of two extended numbers (`NaN` if either is `NaN`). -/
def jsMinE (a b : ENum) : ENum :=
  if a.isNaN || b.isNaN then .nan else if ENum.lt b a then b else a

/-- `Math.max` of two extended numbers. -/
def jsMaxE (a b : ENum) : ENum :=
  if a.isNaN || b.isNaN then .nan else if ENum.lt a b then b else a

/-- `Math.min(...xs)` (the empty spread gives `Infinity`). -/
def listMinE (l : List ENum) : ENum := l.foldl jsMinE .inf

/-- `Math.max(...xs)` (the empty spread gives `-Infinity`). -/
def listMaxE (l : List ENum) : ENum := l.foldl jsMaxE .ninf

/-- `ToInt32`, the coercion JavaScript applies to bitwise operands:
`NaN` and the infinities go to 0, finite values truncate towards zero and
wrap into `[-2^31, 2^31)`. -/
def ENum.toInt32 : ENum → ℤ
  | .num q => ((jsTrunc q + 2147483648) % 4294967296) - 2147483648
  | _ => 0

/-- JavaScript division on extended numbers. -/
def ENum.divE : ENum → ENum → ENum
  | .nan, _ => .nan
  | _, .nan => .nan
  | .inf, .inf => .nan
  | .inf, .ninf => .nan
  | .inf, .num b => if b < 0 then .ninf else .inf
  | .ninf, .inf => .nan
  | .ninf, .ninf => .nan
  | .ninf, .num b => if b < 0 then .inf else .ninf
  | .num _, .inf => .num 0
  | .num _, .ninf => .num 0
  | .num a, .num b =>
    if b = 0 then (if a = 0 then .nan else if 0 < a then .inf else .ninf)
    else .num (a / b)

/-- JavaScript multiplication on extended numbers. -/
def ENum.mulE : ENum → ENum → ENum
  | .nan, _ => .nan
  | _, .nan => .nan
  | .inf, .inf => .inf
  | .inf, .ninf => .ninf
  | .inf, .num b => if b = 0 then .nan else if 0 < b then .inf else .ninf
  | .ninf, .inf => .ninf
  | .ninf, .ninf => .inf
  | .ninf, .num b => if b = 0 then .nan else if 0 < b then .ninf else .inf
  | .num a, .inf => if a = 0 then .nan else if 0 < a then .inf else .ninf
  | .num a, .ninf => if a = 0 then .nan else if 0 < a then .ninf else .inf
  | .num a, .num b => .num (a * b)

/-- `Math.ceil` on extended numbers. -/
def ENum.ceilE : ENum → ENum
  | .num q => .num ((⌈q⌉ : ℤ) : ℚ)
  | e => e

/-- A stitch with extended-number coordinates. -/
structure StitchE : Type where
  x : ENum
  y : ENum
  type : SType
  color : String
  deriving DecidableEq

/-- A pattern with extended-number coordinates and dimensions. -/
structure PatternE : Type where
  stitches : List StitchE
  colors : List String
  width : ENum
  height : ENum
  deriving DecidableEq

/-- JavaScript truthiness of a number (`0` and `NaN` are falsy). -/
def ENum.truthy : ENum → Bool
  | .num q => decide (q ≠ 0)
  | .nan => false
  | _ => true

/-- `DSTWriter.validatePattern` over extended numbers: the coordinate
check is exactly `isNaN(stitch.x) || isNaN(stitch.y)` — infinities pass. -/
def dstValidateE (p : PatternE) : Option String :=
  if p.stitches.length = 0 then some "Pattern has no stitches"
  else if 999999 < p.stitches.length then some "Pattern has too many stitches"
  else if p.stitches.any (fun s => s.x.isNaN || s.y.isNaN) then
    some "Invalid coordinates"
  else if !p.width.truthy || !p.height.truthy then some "Invalid pattern dimensions"
  else if ENum.lt (.num 400) p.width || ENum.lt (.num 400) p.height then
    some "Pattern dimensions exceed maximum size of 400mm"
  else none

/-- `DSTWriter.normalizeCoordinates` over extended numbers. -/
def dstNormalizeE (p : PatternE) : List StitchE :=
  let minX := listMinE (p.stitches.map (·.x))
  let minY := listMinE (p.stitches.map (·.y))
  p.stitches.map fun s =>
    { x := ((s.x.sub minX).mul10).round
      y := ((s.y.sub minY).mul10).round
      type := s.type
      color := s.color }

/-- `String(x)` for an extended number (finite values round-trip through
the integer renderer; every value reaching the header has passed
`Math.round`, so the integer case is the only one that occurs for
finite numbers). -/
def eChars : ENum → List Char
  | .nan => "NaN".toList
  | .inf => "Infinity".toList
  | .ninf => "-Infinity".toList
  | .num q => intChars ⌊q⌋

/-- The DST header text over extended numbers. -/
def headerCharsE (stitches : List StitchE) : List Char :=
  let xs := stitches.map (·.x)
  let ys := stitches.map (·.y)
  joinCRLF
    [ "LA:Design Studio".toList
    , "ST:".toList ++ jsNumChars stitches.length
    , "CO:1".toList
    , "+X:".toList ++ eChars (listMaxE xs)
    , "-X:".toList ++ eChars ((listMinE xs).abs)
    , "+Y:".toList ++ eChars (listMaxE ys)
    , "-Y:".toList ++ eChars ((listMinE ys).abs)
    , "AX:+0".toList
    , "AY:+0".toList
    , "MX:+0".toList
    , "MY:+0".toList
    , "PD:******".toList ]

/-- `encodeStitchDelta` over extended numbers: clamp, take `ToInt32` of
the absolute values (0 for `NaN`/infinities), and pack nibbles, sign bits
and type bits.  `n & 0x0F` is `n mod 16` and `(n & 0xF0) >> 4` is
`(n mod 256) / 16` on the 32-bit value. -/
def encodeStitchDeltaE (dx dy : ENum) (t : SType) : List ℕ :=
  let cx := jsMaxE (.num (-121)) (jsMinE (.num 121) dx)
  let cy := jsMaxE (.num (-121)) (jsMinE (.num 121) dy)
  let x := cx.abs.toInt32
  let y := cy.abs.toInt32
  let b0 := (y % 16).toNat
  let b1 := (x % 16).toNat
  let b2 := ((y % 256) / 16).toNat ||| ((x % 256) / 16).toNat
  let b2 := b2 ||| (if ENum.lt cx (.num 0) then 0x20 else 0)
  let b2 := b2 ||| (if ENum.lt cy (.num 0) then 0x40 else 0)
  let b2 := b2 ||| typeBits t
  [b0, b1, b2]

/-- Iteration count of the splitting loop `for (i = 0; i < steps; i++)`
for an extended `steps` value: `none` marks divergence (`steps`
infinite); a `NaN` or negative bound gives zero iterations. -/
def loopCount : ENum → Option ℕ
  | .inf => none
  | .num q => some (jsTrunc q).toNat
  | _ => some 0

/-- The body of `encodeStitches` for one extended-number delta.  Returns
`none` when the splitting loop diverges. -/
def encodeOneDeltaE (dx dy : ENum) (t : SType) : Option (List ℕ) :=
  if ENum.lt (.num 121) dx.abs || ENum.lt (.num 121) dy.abs then
    let steps := jsMaxE ((dx.abs.divE (.num 121)).ceilE) ((dy.abs.divE (.num 121)).ceilE)
    match loopCount steps with
    | none => none
    | some n =>
      some ((List.range n).flatMap fun i =>
        encodeStitchDeltaE
          (((dx.mulE (.num (i + 1))).divE steps).sub ((dx.mulE (.num i)).divE steps)).round
          (((dy.mulE (.num (i + 1))).divE steps).sub ((dy.mulE (.num i)).divE steps)).round
          .jump)
  else
    some (encodeStitchDeltaE dx dy t)

/-- The encoding loop over extended numbers. -/
def encodeGoE (lx ly : ENum) : List StitchE → Option (List ℕ)
  | [] => some []
  | s :: rest =>
    match encodeOneDeltaE (s.x.sub lx) (s.y.sub ly) s.type with
    | none => none
    | some bs =>
      match encodeGoE s.x s.y rest with
      | none => none
      | some rs => some (bs ++ rs)

/-- `encodeStitches` over extended numbers. -/
def encodeStitchesE (l : List StitchE) : Option (List ℕ) :=
  match encodeGoE (.num 0) (.num 0) l with
  | none => none
  | some body =>
    some (encodeStitchDeltaE (.num 0) (.num 0) .jump ++ body ++
      encodeStitchDeltaE (.num 0) (.num 0) .endS)

/-- Result of `DSTWriter.write` over extended numbers: an error, a
non-terminating encode loop, or the output bytes. -/
inductive DstResultE : Type
  | err (msg : String)
  | diverge
  | done (bytes : List ℕ)
  deriving DecidableEq

/-- Whether a write produced output bytes. -/
def DstResultE.isDone : DstResultE → Bool
  | .done _ => true
  | _ => false

/-- `DSTWriter.write` over extended numbers. -/
def dstWriteE (p : PatternE) : DstResultE :=
  match dstValidateE p with
  | some e => .err e
  | none =>
    let ns := dstNormalizeE p
    let hc := headerCharsE ns
    if 512 < hc.length then .err "Header size exceeds maximum allowed"
    else
      match encodeStitchesE ns with
      | none => .diverge
      | some body =>
        .done ((hc.map Char.toNat ++ List.replicate (512 - hc.length) 0) ++ body)

/-- A pattern whose single stitch has infinite (hence non-finite, but not
NaN) coordinates. -/
def patInfE : PatternE :=
  { stitches := [{ x := .inf, y := .inf, type := .normal, color := "#000000" }]
  , colors := ["#000000"], width := .num 100, height := .num 100 }

/-- C7 counterexample: `validatePattern` only tests `isNaN`, so a pattern
whose stitch coordinates are `Infinity` (not finite) passes validation;
normalization turns them into `NaN` (`∞ − ∞`), the encoder emits a
zero-delta record for them, and `DSTWriter.write` returns a byte buffer
instead of failing. -/
theorem c7_counterexample :
    patInfE.stitches.map (fun s => s.x) = [ENum.inf] ∧
      patInfE.stitches.map (fun s => s.x.isNaN) = [false] ∧
      (dstWriteE patInfE).isDone = true := by decide

/-- C7 amended: `DSTWriter.write` fails whenever some stitch coordinate
is `NaN` (the `isNaN` test in `validatePattern`); an infinite coordinate
alone is not rejected. -/
theorem c7_amended (p : PatternE)
    (h : p.stitches.any (fun s => s.x.isNaN || s.y.isNaN) = true) :
    ∃ m, dstWriteE p = .err m := by
  have hv : ∃ m, dstValidateE p = some m := by
    unfold dstValidateE
    by_cases h0 : p.stitches.length = 0
    · exact ⟨_, if_pos h0⟩
    · rw [if_neg h0]
      by_cases h1 : 999999 < p.stitches.length
      · exact ⟨_, if_pos h1⟩
      · rw [if_neg h1]
        exact ⟨_, if_pos h⟩
  obtain ⟨m, hm⟩ := hv
  refine ⟨m, ?_⟩
  unfold dstWriteE
  rw [hm]

/-- Pattern with a NaN coordinate for the C7 witness. -/
def patNanE : PatternE :=
  { stitches := [{ x := .nan, y := .num 0, type := .normal, color := "#000000" }]
  , colors := ["#000000"], width := .num 100, height := .num 100 }

theorem c7_witness :
    patNanE.stitches.any (fun s => s.x.isNaN || s.y.isNaN) = true ∧
      ∃ m, dstWriteE patNanE = .err m :=
  ⟨by decide, c7_amended patNanE (by decide)⟩

/-- A 2D point of the stitch generator.  The geometry is developed over an
arbitrary linear ordered field so that the same embedding serves both the
exact-rational statements and the real-valued pipeline (whose fill
direction comes from `Math.cos`/`Math.sin`). -/
structure GPoint (α : Type) : Type where
  x : α
  y : α
  deriving DecidableEq

/-- A stitch emitted by `StitchGenerator`.  Its `color` is an `Option`:
`none` models the JavaScript `undefined` that arises when the settings
record carries no `color` field. -/
structure GStitch (α : Type) : Type where
  x : α
  y : α
  type : SType
  color : Option String
  deriving DecidableEq

/-- `StitchGenerator.lineIntersection`: parametric segment-segment
intersection, `none` when the denominator is below `1e-10` or the
parameters leave `[0, 1]`. -/
def lineIntersection {α : Type} [LinearOrderedField α]
    (p1 p2 p3 p4 : GPoint α) : Option (GPoint α) :=
  let denominator := (p4.y - p3.y) * (p2.x - p1.x) - (p4.x - p3.x) * (p2.y - p1.y)
  if |denominator| < 1 / 10000000000 then none
  else
    let ua := ((p4.x - p3.x) * (p1.y - p3.y) - (p4.y - p3.y) * (p1.x - p3.x)) / denominator
    let ub := ((p2.x - p1.x) * (p1.y - p3.y) - (p2.y - p1.y) * (p1.x - p3.x)) / denominator
    if 0 ≤ ua ∧ ua ≤ 1 ∧ 0 ≤ ub ∧ ub ≤ 1 then
      some ⟨p1.x + ua * (p2.x - p1.x), p1.y + ua * (p2.y - p1.y)⟩
    else none

/-- Consecutive vertex pairs of a polyline (`contour[i], contour[i+1]`). -/
def consPairs {γ : Type} : List γ → List (γ × γ)
  | a :: b :: rest => (a, b) :: consPairs (b :: rest)
  | _ => []

/-- `StitchGenerator.findIntersections`: every contour edge against the
scan line, collected in order. -/
def findIntersections {α : Type} [LinearOrderedField α]
    (lineStart lineEnd : GPoint α) (contours : List (List (GPoint α))) : List (GPoint α) :=
  contours.flatMap fun contour =>
    (consPairs contour).filterMap fun e => lineIntersection lineStart lineEnd e.1 e.2

/-- Projection of an intersection onto the fill direction, the sort key of
the boustrophedon ordering. -/
def projKey {α : Type} [LinearOrderedField α]
    (lineStart : GPoint α) (dirX dirY : α) (a : GPoint α) : α :=
  (a.x - lineStart.x) * dirX + (a.y - lineStart.y) * dirY

/-- The `intersections.sort(...)` call: ascending in the projection, or
descending when `isReversed` (a stable sort models the JavaScript
comparator-based sort). -/
def sortIntersections {α : Type} [LinearOrderedField α]
    (lineStart : GPoint α) (dirX dirY : α) (isReversed : Bool)
    (ints : List (GPoint α)) : List (GPoint α) :=
  ints.mergeSort fun a b =>
    if isReversed then
      decide (projKey lineStart dirX dirY b ≤ projKey lineStart dirX dirY a)
    else
      decide (projKey lineStart dirX dirY a ≤ projKey lineStart dirX dirY b)

/-- Stitches emitted for one intersection pair: a jump to the start, then
`max(1, ceil(distance / spacing))` equally spaced normal points ending at
the end point (`sq` is the model of `Math.sqrt`, used by `Math.hypot`). -/
def pairStitches {α : Type} [LinearOrderedField α] [FloorRing α] (sq : α → α)
    (spacing : α) (color : Option String) (a b : GPoint α) : List (GStitch α) :=
  let distance := sq ((b.x - a.x) * (b.x - a.x) + (b.y - a.y) * (b.y - a.y))
  let steps := max 1 (⌈distance / spacing⌉.toNat)
  ⟨a.x, a.y, .jump, color⟩ ::
    (List.range steps).map fun n =>
      let t := ((n + 1 : ℕ) : α) / (steps : α)
      ⟨a.x + (b.x - a.x) * t, a.y + (b.y - a.y) * t, .normal, color⟩

/-- The pair loop `for (j = 0; j < intersections.length - 1; j += 2)`:
consecutive pairs of the sorted intersections; a trailing unpaired
intersection is ignored. -/
def scanPairs {α : Type} [LinearOrderedField α] [FloorRing α] (sq : α → α)
    (spacing : α) (color : Option String) : List (GPoint α) → List (GStitch α)
  | a :: b :: rest => pairStitches sq spacing color a b ++ scanPairs sq spacing color rest
  | _ => []

/-- The body of the scanline loop of `generateFillStitches` for one fill
line: find the intersections, skip the line when there are fewer than 2,
otherwise sort them and emit stitches for consecutive pairs. -/
def scanlineStitches {α : Type} [LinearOrderedField α] [FloorRing α] (sq : α → α)
    (lineStart lineEnd : GPoint α) (dirX dirY : α) (isReversed : Bool)
    (spacing : α) (color : Option String)
    (contours : List (List (GPoint α))) : List (GStitch α) :=
  let ints := findIntersections lineStart lineEnd contours
  if ints.length < 2 then []
  else scanPairs sq spacing color (sortIntersections lineStart dirX dirY isReversed ints)

/-- A computable model of `Math.sqrt` on the rationals: exact on
arguments whose square root is rational, `0` elsewhere (where the float
result is irrational and has no exact rational counterpart).  No theorem
below depends on its value — the scanline claims are about which lines
emit stitches at all. -/
def ratSqrt (q : ℚ) : ℚ :=
  let n := q.num.toNat * q.den
  if q.num < 0 then 0
  else if Nat.sqrt n * Nat.sqrt n = n then (Nat.sqrt n : ℚ) / (q.den : ℚ)
  else 0

lemma scanPairs_ne_nil {α : Type} [LinearOrderedField α] [FloorRing α] (sq : α → α)
    (spacing : α) (color : Option String) (l : List (GPoint α)) (h : 2 ≤ l.length) :
    scanPairs sq spacing color l ≠ [] := by
  cases l with
  | nil => simp at h
  | cons a rest =>
    cases rest with
    | nil => simp at h
    | cons b rest2 =>
      show pairStitches sq spacing color a b ++ scanPairs sq spacing color rest2 ≠ []
      unfold pairStitches
      simp

/-- C5 amended: a scanline is skipped (emits no stitches) exactly when it
has fewer than 2 intersections with the contour edges; for any count of
at least 2 — even or odd — stitches are emitted for the consecutive
intersection pairs, the last unpaired intersection of an odd count being
ignored. -/
theorem c5_amended {α : Type} [LinearOrderedField α] [FloorRing α] (sq : α → α)
    (lineStart lineEnd : GPoint α) (dirX dirY : α) (isReversed : Bool)
    (spacing : α) (color : Option String) (contours : List (List (GPoint α))) :
    scanlineStitches sq lineStart lineEnd dirX dirY isReversed spacing color contours = [] ↔
      (findIntersections lineStart lineEnd contours).length < 2 := by
  unfold scanlineStitches
  by_cases h : (findIntersections lineStart lineEnd contours).length < 2
  · rw [if_pos h]
    exact iff_of_true rfl h
  · rw [if_neg h]
    refine iff_of_false ?_ h
    refine scanPairs_ne_nil sq spacing color _ ?_
    unfold sortIntersections
    rw [List.length_mergeSort]
    omega

/-- The contours and scan line of the C5 counterexample: a horizontal
scan line crossing three contour edges. -/
def c5contours : List (List (GPoint ℚ)) := [[⟨0, -1⟩, ⟨0, 1⟩, ⟨1, -1⟩, ⟨1, 1⟩]]

/-- Scan line start point for the C5 counterexample. -/
def c5start : GPoint ℚ := ⟨-10, 0⟩

/-- Scan line end point for the C5 counterexample. -/
def c5fin : GPoint ℚ := ⟨10, 0⟩

lemma c5edge1 : lineIntersection c5start c5fin (⟨0, -1⟩ : GPoint ℚ) ⟨0, 1⟩ =
    some ⟨0, 0⟩ := by
  unfold lineIntersection c5start c5fin
  norm_num

lemma c5edge2 : lineIntersection c5start c5fin (⟨0, 1⟩ : GPoint ℚ) ⟨1, -1⟩ =
    some ⟨1 / 2, 0⟩ := by
  unfold lineIntersection c5start c5fin
  norm_num

lemma c5edge3 : lineIntersection c5start c5fin (⟨1, -1⟩ : GPoint ℚ) ⟨1, 1⟩ =
    some ⟨1, 0⟩ := by
  unfold lineIntersection c5start c5fin
  norm_num

lemma c5ints : findIntersections c5start c5fin c5contours =
    [⟨0, 0⟩, ⟨1 / 2, 0⟩, ⟨1, 0⟩] := by
  unfold findIntersections c5contours
  simp only [List.flatMap_cons, List.flatMap_nil, List.append_nil, consPairs]
  rw [List.filterMap]
  simp only [List.filterMap_cons, c5edge1, c5edge2, c5edge3]
  rfl

/-- C5 counterexample: this scanline meets the contour edges in exactly 3
(an odd number of) intersections, yet it is not skipped — stitches are
emitted for the first consecutive pair. -/
theorem c5_counterexample :
    (findIntersections c5start c5fin c5contours).length = 3 ∧
      scanlineStitches ratSqrt c5start c5fin 1 0 false 1 none c5contours ≠ [] := by
  constructor
  · rw [c5ints]
    rfl
  · unfold scanlineStitches
    rw [if_neg (by rw [c5ints]; decide)]
    refine scanPairs_ne_nil _ _ _ _ ?_
    unfold sortIntersections
    rw [List.length_mergeSort, c5ints]
    decide

/-- The settings record `StitchGenerator.generateStitches` destructures.
`color` is an `Option`: the Pipeline passes a settings object without a
`color` field (it passes `colors`, a list), so the generator reads
`undefined` — modelled as `none`. -/
structure GenSettings : Type where
  width : ℝ
  height : ℝ
  density : ℝ
  angle : ℝ
  underlay : Bool
  pullCompensation : ℝ
  color : Option String

/-- JavaScript `%` on reals (sign of the dividend). -/
noncomputable def jsRemR (a n : ℝ) : ℝ :=
  a - n * (if 0 ≤ a / n then ((⌊a / n⌋ : ℤ) : ℝ) else -((⌊-(a / n)⌋ : ℤ) : ℝ))

/-- `StitchGenerator.generateFillStitches` (scanline fill): axis-aligned
bounds of all contour points, fill lines through the centre at every
multiple of `spacing` along the normal of the fill direction, stitches
per line as in `scanlineStitches`, with the sort direction alternating
per line.  (The source seeds its bound folds with `±Infinity`; for the
empty point set — where the source would produce `NaN` geometry and no
intersections — the folds here default to `0`, and no stitches are
produced either way.) -/
noncomputable def generateFillStitchesR (contours : List (List (GPoint ℝ)))
    (angle spacing : ℝ) (color : Option String) : List (GStitch ℝ) :=
  let angleRad := angle * Real.pi / 180
  let dirX := Real.cos angleRad
  let dirY := Real.sin angleRad
  let pts := contours.flatten
  let minX := listMin 0 (pts.map fun p : GPoint ℝ => p.x)
  let maxX := listMax 0 (pts.map fun p : GPoint ℝ => p.x)
  let minY := listMin 0 (pts.map fun p : GPoint ℝ => p.y)
  let maxY := listMax 0 (pts.map fun p : GPoint ℝ => p.y)
  let diagonal := Real.sqrt ((maxX - minX) * (maxX - minX) + (maxY - minY) * (maxY - minY))
  let numLines := ⌈diagonal / spacing⌉
  let center : GPoint ℝ := ⟨(minX + maxX) / 2, (minY + maxY) / 2⟩
  (List.range (2 * numLines + 1).toNat).flatMap fun j =>
    let i : ℝ := ((-numLines + j : ℤ) : ℝ)
    let offset := i * spacing
    let lineStart : GPoint ℝ :=
      ⟨center.x - dirY * offset - dirX * diagonal, center.y + dirX * offset - dirY * diagonal⟩
    let lineEnd : GPoint ℝ :=
      ⟨center.x - dirY * offset + dirX * diagonal, center.y + dirX * offset + dirY * diagonal⟩
    scanlineStitches Real.sqrt lineStart lineEnd dirX dirY (decide (j % 2 = 1))
      spacing color contours

/-- `StitchGenerator.generateOutlineStitches`: a jump to the first vertex,
then interpolated normal stitches along each segment no shorter than
`spacing`. -/
noncomputable def generateOutlineStitchesR (points : List (GPoint ℝ))
    (spacing : ℝ) (color : Option String) : List (GStitch ℝ) :=
  (match points with
   | [] => []
   | p :: _ => [⟨p.x, p.y, .jump, color⟩]) ++
  (consPairs points).flatMap fun e =>
    let dx := e.2.x - e.1.x
    let dy := e.2.y - e.1.y
    let distance := Real.sqrt (dx * dx + dy * dy)
    if distance < spacing then []
    else
      (List.range (⌈distance / spacing⌉.toNat)).map fun n =>
        let t := ((n + 1 : ℕ) : ℝ) / ((⌈distance / spacing⌉.toNat : ℕ) : ℝ)
        ⟨e.1.x + dx * t, e.1.y + dy * t, .normal, color⟩

/-- The spacing computed by `generateStitches` from size and density. -/
noncomputable def gsSpacing (gs : GenSettings) : ℝ :=
  max 0.3 (Real.sqrt (gs.width * gs.height /
    ((min 15000 ⌈gs.width * gs.height * gs.density⌉ : ℤ) : ℝ)) / gs.density)

/-- The initial jump of `generateStitches` (`contours[0]?.length > 0`). -/
def gsInit (contours : List (List (GPoint ℝ))) (color : Option String) : List (GStitch ℝ) :=
  match contours.headD [] with
  | [] => []
  | p :: _ => [⟨p.x, p.y, .jump, color⟩]

/-- `StitchGenerator.generateStitches` (the scanline variant of
`stitch-generator.ts`): initial jump, optional underlay fill at
`(angle + 90) % 360` with doubled spacing, main fill, outline stitches
per contour, and a final duplicated jump when anything was emitted. -/
noncomputable def generateStitchesR (contours : List (List (GPoint ℝ)))
    (gs : GenSettings) : List (GStitch ℝ) :=
  let spacing := gsSpacing gs
  let all :=
    gsInit contours gs.color ++
    (if gs.underlay then
      generateFillStitchesR contours (jsRemR (gs.angle + 90) 360) (spacing * 2) gs.color
    else []) ++
    generateFillStitchesR contours gs.angle spacing gs.color ++
    contours.flatMap fun c => generateOutlineStitchesR c spacing gs.color
  match all.getLast? with
  | none => all
  | some l => all ++ [⟨l.x, l.y, .jump, l.color⟩]

/-- Modelled from the spec: `StitchOptimizer.optimizeStitches` is imported
by the Pipeline but absent from `src/`.  Spec §4.6: "Removes consecutive
duplicate `Normal` points (within 1e-6 mm), collapses adjacent `Jump`
runs to a single `Jump` at the final destination, and validates NaN-free
coordinates."  Every kept stitch is one of the input stitches. -/
noncomputable def optimizeStitches : List (GStitch ℝ) → List (GStitch ℝ)
  | [] => []
  | [s] => [s]
  | a :: b :: rest =>
    if a.type = .jump ∧ b.type = .jump then optimizeStitches (b :: rest)
    else if a.type = .normal ∧ b.type = .normal ∧
        |b.x - a.x| < 1 / 1000000 ∧ |b.y - a.y| < 1 / 1000000 then
      optimizeStitches (a :: rest)
    else a :: optimizeStitches (b :: rest)
  termination_by l => l.length

lemma getLast?_mem_self {γ : Type} : ∀ (l : List γ) (a : γ), l.getLast? = some a → a ∈ l := by
  intro l
  induction l with
  | nil => intro a h; simp at h
  | cons x xs ih =>
    intro a h
    cases xs with
    | nil =>
      simp at h
      rw [h]
      exact List.mem_singleton.mpr rfl
    | cons y ys =>
      rw [List.getLast?_cons_cons] at h
      exact List.mem_cons_of_mem _ (ih a h)

lemma pairStitches_color {α : Type} [LinearOrderedField α] [FloorRing α] (sq : α → α)
    (spacing : α) (c : Option String) (a b : GPoint α) :
    ∀ st ∈ pairStitches sq spacing c a b, st.color = c := by
  intro st hst
  unfold pairStitches at hst
  rcases List.mem_cons.mp hst with rfl | h
  · rfl
  · obtain ⟨n, _, rfl⟩ := List.mem_map.mp h
    rfl

lemma scanPairs_color {α : Type} [LinearOrderedField α] [FloorRing α] (sq : α → α)
    (spacing : α) (c : Option String) :
    ∀ (n : ℕ) (l : List (GPoint α)), l.length ≤ n →
      ∀ st ∈ scanPairs sq spacing c l, st.color = c := by
  intro n
  induction n with
  | zero =>
    intro l hl st hst
    cases l with
    | nil => simp [scanPairs] at hst
    | cons a rest => simp at hl
  | succ k ih =>
    intro l hl st hst
    cases l with
    | nil => simp [scanPairs] at hst
    | cons a rest =>
      cases rest with
      | nil => simp [scanPairs] at hst
      | cons b rest2 =>
        have : st ∈ pairStitches sq spacing c a b ++ scanPairs sq spacing c rest2 := hst
        rcases List.mem_append.mp this with h | h
        · exact pairStitches_color sq spacing c a b st h
        · refine ih rest2 ?_ st h
          simp at hl
          omega

lemma scanlineStitches_color {α : Type} [LinearOrderedField α] [FloorRing α] (sq : α → α)
    (lineStart lineEnd : GPoint α) (dirX dirY : α) (isReversed : Bool)
    (spacing : α) (c : Option String) (contours : List (List (GPoint α))) :
    ∀ st ∈ scanlineStitches sq lineStart lineEnd dirX dirY isReversed spacing c contours,
      st.color = c := by
  intro st hst
  unfold scanlineStitches at hst
  by_cases h : (findIntersections lineStart lineEnd contours).length < 2
  · rw [if_pos h] at hst
    exact absurd hst (List.not_mem_nil st)
  · rw [if_neg h] at hst
    exact scanPairs_color sq spacing c _ _ (le_refl _) st hst

lemma generateFillStitchesR_color (contours : List (List (GPoint ℝ)))
    (angle spacing : ℝ) (c : Option String) :
    ∀ st ∈ generateFillStitchesR contours angle spacing c, st.color = c := by
  intro st hst
  unfold generateFillStitchesR at hst
  simp only [List.mem_flatMap] at hst
  obtain ⟨j, _, hj⟩ := hst
  exact scanlineStitches_color _ _ _ _ _ _ _ _ _ st hj

lemma generateOutlineStitchesR_color (points : List (GPoint ℝ))
    (spacing : ℝ) (c : Option String) :
    ∀ st ∈ generateOutlineStitchesR points spacing c, st.color = c := by
  intro st hst
  unfold generateOutlineStitchesR at hst
  rcases List.mem_append.mp hst with h | h
  · cases points with
    | nil => exact absurd h (List.not_mem_nil st)
    | cons p ps =>
      rcases List.mem_singleton.mp h with rfl
      rfl
  · simp only [List.mem_flatMap] at h
    obtain ⟨e, _, he⟩ := h
    by_cases hd : Real.sqrt ((e.2.x - e.1.x) * (e.2.x - e.1.x) +
        (e.2.y - e.1.y) * (e.2.y - e.1.y)) < spacing
    · rw [if_pos hd] at he
      exact absurd he (List.not_mem_nil st)
    · rw [if_neg hd] at he
      obtain ⟨n, _, rfl⟩ := List.mem_map.mp he
      rfl

lemma gsInit_color (contours : List (List (GPoint ℝ))) (c : Option String) :
    ∀ st ∈ gsInit contours c, st.color = c := by
  intro st hst
  unfold gsInit at hst
  cases h : contours.headD [] with
  | nil => rw [h] at hst; exact absurd hst (List.not_mem_nil st)
  | cons p ps =>
    rw [h] at hst
    rcases List.mem_singleton.mp hst with rfl
    rfl

lemma generateStitchesR_all_color (contours : List (List (GPoint ℝ))) (gs : GenSettings) :
    ∀ st ∈ (gsInit contours gs.color ++
      (if gs.underlay = true then
        generateFillStitchesR contours (jsRemR (gs.angle + 90) 360)
          ((gsSpacing gs) * 2) gs.color
      else []) ++
      generateFillStitchesR contours gs.angle (gsSpacing gs) gs.color ++
      contours.flatMap fun c => generateOutlineStitchesR c (gsSpacing gs) gs.color),
      st.color = gs.color := by
  intro st hst
  rcases List.mem_append.mp hst with h | h
  · rcases List.mem_append.mp h with h2 | h2
    · rcases List.mem_append.mp h2 with h3 | h3
      · exact gsInit_color contours gs.color st h3
      · by_cases hu : gs.underlay = true
        · rw [if_pos hu] at h3
          exact generateFillStitchesR_color _ _ _ _ st h3
        · rw [if_neg hu] at h3
          exact absurd h3 (List.not_mem_nil st)
    · exact generateFillStitchesR_color _ _ _ _ st h2
  · simp only [List.mem_flatMap] at h
    obtain ⟨cont, _, hc⟩ := h
    exact generateOutlineStitchesR_color _ _ _ st hc

lemma generateStitchesR_color (contours : List (List (GPoint ℝ))) (gs : GenSettings) :
    ∀ st ∈ generateStitchesR contours gs, st.color = gs.color := by
  intro st hst
  unfold generateStitchesR at hst
  simp only [] at hst
  cases hl : (gsInit contours gs.color ++
      (if gs.underlay = true then
        generateFillStitchesR contours (jsRemR (gs.angle + 90) 360)
          ((gsSpacing gs) * 2) gs.color
      else []) ++
      generateFillStitchesR contours gs.angle (gsSpacing gs) gs.color ++
      contours.flatMap fun c => generateOutlineStitchesR c (gsSpacing gs) gs.color).getLast? with
  | none =>
    rw [hl] at hst
    exact generateStitchesR_all_color contours gs st hst
  | some l =>
    rw [hl] at hst
    simp only [] at hst
    rcases List.mem_append.mp hst with h | h
    · exact generateStitchesR_all_color contours gs st h
    · rcases List.mem_singleton.mp h with rfl
      show l.color = gs.color
      exact generateStitchesR_all_color contours gs l (getLast?_mem_self _ l hl)

lemma optimizeStitches_subset_fuel :
    ∀ (n : ℕ) (l : List (GStitch ℝ)), l.length ≤ n →
      ∀ s ∈ optimizeStitches l, s ∈ l := by
  intro n
  induction n with
  | zero =>
    intro l hl s hs
    have : l = [] := List.length_eq_zero.mp (by omega)
    subst this
    simp [optimizeStitches] at hs
  | succ k ih =>
    intro l hl s hs
    match l, hl, hs with
    | [], _, hs => simp [optimizeStitches] at hs
    | [a], _, hs =>
      simp only [optimizeStitches] at hs
      exact hs
    | a :: b :: rest, hl, hs =>
      simp only [optimizeStitches] at hs
      by_cases h1 : a.type = .jump ∧ b.type = .jump
      · rw [if_pos h1] at hs
        have hlen : (b :: rest).length ≤ k := by
          simp only [List.length_cons] at hl ⊢
          omega
        exact List.mem_cons_of_mem _ (ih (b :: rest) hlen s hs)
      · rw [if_neg h1] at hs
        by_cases h2 : a.type = .normal ∧ b.type = .normal ∧
            |b.x - a.x| < 1 / 1000000 ∧ |b.y - a.y| < 1 / 1000000
        · rw [if_pos h2] at hs
          have hlen : (a :: rest).length ≤ k := by
            simp only [List.length_cons] at hl ⊢
            omega
          have := ih (a :: rest) hlen s hs
          rcases List.mem_cons.mp this with rfl | h3
          · exact List.mem_cons_self _ _
          · exact List.mem_cons_of_mem _ (List.mem_cons_of_mem _ h3)
        · rw [if_neg h2] at hs
          rcases List.mem_cons.mp hs with rfl | h3
          · exact List.mem_cons_self _ _
          · have hlen : (b :: rest).length ≤ k := by
              simp only [List.length_cons] at hl ⊢
              omega
            exact List.mem_cons_of_mem _ (ih (b :: rest) hlen s h3)

lemma optimizeStitches_sub (l : List (GStitch ℝ)) :
    ∀ s ∈ optimizeStitches l, s ∈ l :=
  optimizeStitches_subset_fuel l.length l (le_refl _)

lemma optimizeStitches_ne_fuel :
    ∀ (n : ℕ) (l : List (GStitch ℝ)), l.length ≤ n → l ≠ [] →
      optimizeStitches l ≠ [] := by
  intro n
  induction n with
  | zero =>
    intro l hl hne
    have : l = [] := List.length_eq_zero.mp (by omega)
    exact absurd this hne
  | succ k ih =>
    intro l hl hne
    match l, hl with
    | [], _ => exact absurd rfl hne
    | [a], _ =>
      simp only [optimizeStitches]
      exact List.cons_ne_nil a []
    | a :: b :: rest, hl =>
      simp only [optimizeStitches]
      by_cases h1 : a.type = .jump ∧ b.type = .jump
      · rw [if_pos h1]
        refine ih (b :: rest) ?_ (List.cons_ne_nil b rest)
        simp only [List.length_cons] at hl ⊢
        omega
      · rw [if_neg h1]
        by_cases h2 : a.type = .normal ∧ b.type = .normal ∧
            |b.x - a.x| < 1 / 1000000 ∧ |b.y - a.y| < 1 / 1000000
        · rw [if_pos h2]
          refine ih (a :: rest) ?_ (List.cons_ne_nil a rest)
          simp only [List.length_cons] at hl ⊢
          omega
        · rw [if_neg h2]
          exact List.cons_ne_nil a _

lemma optimizeStitches_nonempty (l : List (GStitch ℝ)) (h : l ≠ []) :
    optimizeStitches l ≠ [] :=
  optimizeStitches_ne_fuel l.length l (le_refl _) h

lemma getLast?_none_nil {γ : Type} : ∀ (l : List γ), l.getLast? = none → l = [] := by
  intro l
  induction l with
  | nil => intro _; rfl
  | cons x xs ih =>
    intro h
    cases xs with
    | nil => simp at h
    | cons y ys =>
      rw [List.getLast?_cons_cons] at h
      exact absurd (ih h) (List.cons_ne_nil y ys)

lemma generateStitchesR_ne (contours : List (List (GPoint ℝ))) (gs : GenSettings)
    (h : contours.headD [] ≠ []) : generateStitchesR contours gs ≠ [] := by
  have hinit : gsInit contours gs.color ≠ [] := by
    unfold gsInit
    cases hc : contours.headD [] with
    | nil => exact absurd hc h
    | cons p ps => simp
  unfold generateStitchesR
  simp only []
  cases hl : (gsInit contours gs.color ++
      (if gs.underlay = true then
        generateFillStitchesR contours (jsRemR (gs.angle + 90) 360)
          ((gsSpacing gs) * 2) gs.color
      else []) ++
      generateFillStitchesR contours gs.angle (gsSpacing gs) gs.color ++
      contours.flatMap fun c => generateOutlineStitchesR c (gsSpacing gs) gs.color).getLast? with
  | none =>
    have := getLast?_none_nil _ hl
    simp only [List.append_eq_nil] at this
    exact absurd this.1.1.1 hinit
  | some l =>
    simp only []
    intro he
    simp only [List.append_eq_nil] at he
    exact List.cons_ne_nil _ _ he.2

/-- Modelled wiring of `ConversionPipeline.execute` step 5: the Pipeline
builds the generator settings as `{width, height, density, angle:
this.settings.fillAngle, underlay: this.settings.useUnderlay, colors:
processedImage.colors}` — it passes `colors` (a list) where
`StitchGenerator`'s declared settings type requires `color: string`, so
the generator reads `settings.color = undefined` (`none`).  `useUnderlay`
and `fillAngle` are also absent from the sanitized settings record (which
carries `underlay` and `angle`), so the underlay flag is falsy; the angle
enters only through `cos`/`sin` and the color claim holds for every value
of it, so it is kept as a parameter. -/
def pipelineStitchSettings (w h d ang : ℝ) : GenSettings :=
  { width := w, height := h, density := d, angle := ang, underlay := false
  , pullCompensation := 0, color := none }

/-- The pattern assembled by `ConversionPipeline.execute` steps 5–7:
stitches from `StitchGenerator.generateStitches` (then optimized),
`colors` from the `ColorProcessor` stage. -/
structure PatternG : Type where
  stitches : List (GStitch ℝ)
  colors : List String

/-- Steps 5–7 of `ConversionPipeline.execute` given the contour stage's
output and the `ColorProcessor` stage's used-colors list. -/
noncomputable def pipelineStitchStage (contours : List (List (GPoint ℝ)))
    (w h d ang : ℝ) (processedColors : List String) : PatternG :=
  { stitches := optimizeStitches (generateStitchesR contours (pipelineStitchSettings w h d ang))
  , colors := processedColors }

/-- C6 (code bug): for the pattern produced by the pipeline's stitch
stage on any non-degenerate contour input, every stitch's color is
`undefined` (`none`) — the Pipeline passes `colors` where the generator
expects `color` — so some stitch's color is not an element of
`pattern.colors`, whatever the processed color list is. -/
theorem c6_stitch_color_not_in_colors (w h d ang : ℝ) (cols : List String) :
    ∃ st ∈ (pipelineStitchStage [[⟨0, 0⟩]] w h d ang cols).stitches,
      st.color = none ∧
        ∀ c ∈ (pipelineStitchStage [[⟨0, 0⟩]] w h d ang cols).colors, st.color ≠ some c := by
  have hgen : generateStitchesR [[⟨0, 0⟩]] (pipelineStitchSettings w h d ang) ≠ [] :=
    generateStitchesR_ne _ _ (by simp)
  have hopt := optimizeStitches_nonempty _ hgen
  obtain ⟨st, hst⟩ := List.exists_mem_of_ne_nil _ hopt
  have hcol : st.color = none :=
    generateStitchesR_color _ _ st (optimizeStitches_sub _ st hst)
  refine ⟨st, hst, hcol, ?_⟩
  intro c _
  rw [hcol]
  exact fun hcon => Option.noConfusion hcon

theorem c5_witness :
    scanlineStitches ratSqrt c5start c5fin 1 0 false 1 none c5contours = [] ↔
      (findIntersections c5start c5fin c5contours).length < 2 :=
  c5_amended ratSqrt c5start c5fin 1 0 false 1 none c5contours
